import Mathlib

/-!
# Verification of the polymarket-watch surveillance pipeline

Shallow embedding of the core pipeline of the `polycastracker` repository
(directory `polymarket-watch`): the signal engine, the scoring aggregator,
the wallet-accuracy profiler, the ingestion worker's trade-insert/cursor
logic, and the notifier's dry-run behaviour.

Modelling conventions:
* Python `Decimal` values (prices, shares, scores) are modelled as `ℚ`.
  The arithmetic appearing in the embedded code (addition, subtraction,
  multiplication, division, comparison) is exact on the ranges involved.
* Timestamps are modelled as `Int` (Unix seconds, UTC); `timedelta`
  constants become second counts.
* Python dicts keyed by wallets/markets are modelled as association lists
  in first-insertion order, matching Python's deterministic dict order.
* Free-form JSON blobs (`details`, `why_json`, message text) are not
  modelled: no claim below refers to their contents.
-/

namespace PolymarketWatch

/-- Association-list lookup used to model Python `dict.get`. -/
def alookup {α β : Type} [DecidableEq α] (l : List (α × β)) (k : α) : Option β :=
  match l with
  | [] => none
  | (k', v) :: rest => if k' = k then some v else alookup rest k

/-- Association-list update used to model Python `dict.__setitem__`:
replaces the first binding of `k`, or appends a fresh one. -/
def aupdate {α β : Type} [DecidableEq α] (l : List (α × β)) (k : α) (v : β) :
    List (α × β) :=
  match l with
  | [] => [(k, v)]
  | (k', v') :: rest => if k' = k then (k, v) :: rest else (k', v') :: aupdate rest k v

/-- The last `n` elements of a list (Python `list[-n:]` / `deque(maxlen=n)`). -/
def lastN {α : Type} (n : Nat) (l : List α) : List α :=
  l.drop (l.length - n)

/-- Python `str.lower()`, modelled character by character (all strings the
pipeline lower-cases are ASCII). -/
def toLowerStr (s : String) : String := ⟨s.data.map Char.toLower⟩

/-- Stable insertion of `x` into a list sorted by the integer key `key`:
`x` goes before the first element with a strictly larger key. -/
def insertSortedBy {α : Type} (key : α → Int) (x : α) : List α → List α
  | [] => [x]
  | y :: ys => if key x ≤ key y then x :: y :: ys else y :: insertSortedBy key x ys

/-- Stable sort by an integer key, modelling Python's stable `sorted` /
SQL `ORDER BY` on a timestamp column. -/
def sortByKey {α : Type} (key : α → Int) (l : List α) : List α :=
  l.foldr (insertSortedBy key) []

end PolymarketWatch

namespace PolymarketWatch.Accuracy

/-! ## services/profiling/accuracy.py -/

/-- `MIN_FAVORABLE_DELTA = Decimal("0.05")`. -/
def MIN_FAVORABLE_DELTA : ℚ := 5 / 100

/-- `MIN_EVALUATED_TRADES = 5`. -/
def MIN_EVALUATED_TRADES : Int := 5

/-- `ACCURACY_WEIGHTS = {"15m": 0.2, "1h": 0.3, "4h": 0.5}`. -/
def WEIGHT_15M : ℚ := 2 / 10
def WEIGHT_1H : ℚ := 3 / 10
def WEIGHT_4H : ℚ := 5 / 10

/-- `is_favorable_move(side, entry_price, later_price)` from
`services/profiling/accuracy.py`.  The Python body first returns `False`
when `later_price is None`; the optional argument is modelled explicitly. -/
def is_favorable_move (side : String) (entry_price : ℚ)
    (later_price : Option ℚ) : Bool :=
  match later_price with
  | none => false
  | some lp =>
    let delta := lp - entry_price
    if toLowerStr side = "buy" then
      decide (delta ≥ MIN_FAVORABLE_DELTA)
    else
      decide (delta ≤ -MIN_FAVORABLE_DELTA)

/-- `calculate_delta(side, entry_price, later_price)`: signed delta,
positive = favorable. -/
def calculate_delta (side : String) (entry_price : ℚ)
    (later_price : Option ℚ) : Option ℚ :=
  match later_price with
  | none => none
  | some lp =>
    let raw_delta := lp - entry_price
    if toLowerStr side = "buy" then some raw_delta else some (-raw_delta)

end PolymarketWatch.Accuracy

namespace PolymarketWatch.Engine

/-! ## services/signals/engine.py

The engine is a pure function of the store (Trades, WalletStats) and the
trade batch.  SQL queries become list filters over the store; the
per-batch mutable dicts become association lists threaded through a fold.
The free-form `details` dict of each emitted signal is not modelled (no
claim refers to it); scores, which Python converts to `float`, stay exact
rationals. -/

/-- A row of the `trades` table (the columns the embedded services read). -/
structure TradeRow where
  market_id : Int
  wallet_address : String
  side : String
  shares : ℚ
  price : ℚ
  traded_at : Int
  trade_hash : Option String
deriving DecidableEq, Repr

/-- A row of the `wallet_stats` table. -/
structure WalletStatsRow where
  wallet_address : String
  total_trades : Int
  evaluated_trades : Int
  correct_15m : Int
  correct_1h : Int
  correct_4h : Int
  accuracy_score : Option ℚ
  avg_delta_when_correct : Option ℚ
  total_notional : ℚ
  current_streak : Int
  best_streak : Int
deriving DecidableEq, Repr

/-- The slice of the store the signal engine reads. -/
structure Store where
  trades : List TradeRow
  wallet_stats : List WalletStatsRow
deriving DecidableEq, Repr

/-- `TradeEnvelope` dataclass. -/
structure TradeEnvelope where
  id : Int
  market_id : Int
  wallet_address : String
  side : String
  shares : ℚ
  price : ℚ
  traded_at : Int
deriving DecidableEq, Repr, Inhabited

/-- `Signal` dataclass, minus the unmodelled `details` map. -/
structure Signal where
  market_id : Int
  wallet_address : String
  side : String
  signal_type : String
  severity : String
  score : ℚ
  observed_at : Int
deriving DecidableEq, Repr

/-- `SignalEngine.BIG_NOTIONAL = Decimal("1000")`. -/
def BIG_NOTIONAL : ℚ := 1000
/-- `LOW_ACTIVITY_WINDOW = timedelta(hours=24)` in seconds. -/
def LOW_ACTIVITY_WINDOW : Int := 24 * 3600
/-- `LOW_ACTIVITY_MAX_TRADES = 2`. -/
def LOW_ACTIVITY_MAX_TRADES : Nat := 2
/-- `REPEAT_WINDOW = timedelta(minutes=10)` in seconds. -/
def REPEAT_WINDOW : Int := 10 * 60
/-- `REPEAT_MIN_COUNT = 3`. -/
def REPEAT_MIN_COUNT : Nat := 3
/-- `IMPACT_DEVIATION = Decimal("0.05")`. -/
def IMPACT_DEVIATION : ℚ := 5 / 100
/-- `IMPACT_MIN_NOTIONAL = Decimal("500")`. -/
def IMPACT_MIN_NOTIONAL : ℚ := 500
/-- `CLUSTER_WINDOW = timedelta(minutes=5)` in seconds. -/
def CLUSTER_WINDOW : Int := 5 * 60
/-- `CLUSTER_MIN_WALLETS = 3`. -/
def CLUSTER_MIN_WALLETS : Nat := 3
/-- `CLUSTER_MIN_NOTIONAL = Decimal("200")`. -/
def CLUSTER_MIN_NOTIONAL : ℚ := 200
/-- `SMART_WALLET_MIN_ACCURACY = Decimal("0.60")`. -/
def SMART_WALLET_MIN_ACCURACY : ℚ := 60 / 100
/-- `SMART_WALLET_MIN_TRADES = 5`. -/
def SMART_WALLET_MIN_TRADES : Int := 5
/-- `SMART_WALLET_MIN_NOTIONAL = Decimal("100")`. -/
def SMART_WALLET_MIN_NOTIONAL : ℚ := 100

/-- One wallet's entry of `_load_wallet_history`'s dict. -/
structure WalletHist where
  first_seen : Option Int
  recent : Nat
deriving DecidableEq, Repr

/-- `SignalEngine._load_wallet_history`, viewed per wallet: over the store
rows with this wallet and `traded_at < before`, the earliest `traded_at`
and the count inside the preceding 24h window.  A wallet with no such
rows gets the dict's default `{"first_seen": None, "recent": 0}`. -/
def loadWalletHistory (trades : List TradeRow) (before : Int) (w : String) :
    WalletHist :=
  let rows := trades.filter (fun t => t.wallet_address = w ∧ t.traded_at < before)
  let recent_cutoff := before - LOW_ACTIVITY_WINDOW
  { first_seen :=
      rows.foldl
        (fun acc t =>
          match acc with
          | none => some t.traded_at
          | some m => some (min m t.traded_at))
        none
  , recent := (rows.filter (fun t => t.traded_at ≥ recent_cutoff)).length }

/-- `SignalEngine._load_market_price_history`, viewed per market: the
pre-batch `(traded_at, price)` observations ordered by `traded_at`, kept
to the last `50` by the `deque(maxlen=50)`. -/
def loadMarketHistory (trades : List TradeRow) (before : Int) (m : Int) :
    List (Int × ℚ) :=
  lastN 50
    ((sortByKey (fun t => t.traded_at)
        (trades.filter (fun t => t.market_id = m ∧ t.traded_at < before))).map
      (fun t => (t.traded_at, t.price)))

/-- `SignalEngine._load_wallet_stats`, viewed per wallet: its row when it
qualifies (`evaluated_trades >= 5` and non-null `accuracy_score >= 0.60`,
the SQL comparison being false on NULL). -/
def loadWalletStats (stats : List WalletStatsRow) (w : String) :
    Option WalletStatsRow :=
  (stats.filter (fun r =>
      decide (r.wallet_address = w) &&
      decide (r.evaluated_trades ≥ SMART_WALLET_MIN_TRADES) &&
      (match r.accuracy_score with
       | some a => decide (a ≥ SMART_WALLET_MIN_ACCURACY)
       | none => false))).head?

/-- `SignalEngine._notional`. -/
def notionalOf (shares price : ℚ) : ℚ := shares * price

/-- `SignalEngine._baseline_price`: mean of the last 10 recorded prices,
`None` on an empty history. -/
def baselinePrice (history : List (Int × ℚ)) : Option ℚ :=
  match history with
  | [] => none
  | _ =>
    let prices := (lastN 10 history).map Prod.snd
    match prices with
    | [] => none
    | _ => some (prices.sum / (prices.length : ℚ))

/-- `deque(maxlen=50).append`: appending to a full price deque drops the
oldest observation. -/
def appendMax50 (h : List (Int × ℚ)) (x : Int × ℚ) : List (Int × ℚ) :=
  lastN 50 (h ++ [x])

/-- The engine's per-batch mutable state: in-batch overrides of the
preloaded wallet/market dicts, plus the two rolling windows. -/
structure EngineState where
  wallet_history : List (String × WalletHist)
  price_history : List (Int × List (Int × ℚ))
  repeat_windows : List ((String × Int × String) × List Int)
  cluster_windows : List ((Int × String) × List (Int × String × ℚ))
deriving DecidableEq, Repr

/-- The empty override state at batch start. -/
def initState : EngineState := ⟨[], [], [], []⟩

/-- `wallet_history.get(wallet, {"first_seen": None, "recent": 0})`:
the in-batch override when present, else the preloaded per-wallet view. -/
def getWalletHist (store : Store) (earliest : Int) (st : EngineState)
    (w : String) : WalletHist :=
  match alookup st.wallet_history w with
  | some h => h
  | none => loadWalletHistory store.trades earliest w

/-- `market_price_history.get(trade.market_id)` (always populated for the
batch's markets): the in-batch override when present, else the preloaded
per-market history. -/
def getPriceHist (store : Store) (earliest : Int) (st : EngineState)
    (m : Int) : List (Int × ℚ) :=
  match alookup st.price_history m with
  | some h => h
  | none => loadMarketHistory store.trades earliest m

/-- The body of `SignalEngine.evaluate`'s per-trade loop: the six detector
checks in source order, returning the signals this trade emits and the
updated per-batch state. -/
def evalStep (store : Store) (earliest : Int) (st : EngineState)
    (t : TradeEnvelope) : List Signal × EngineState :=
  let notional := notionalOf t.shares t.price
  let wallet := t.wallet_address
  let side := t.side
  let stats := getWalletHist store earliest st wallet
  -- FRESH_WALLET_BIG_SIZE
  let freshSigs :=
    if stats.first_seen = none then
      if notional ≥ BIG_NOTIONAL then
        [⟨t.market_id, wallet, side, "FRESH_WALLET_BIG_SIZE", "high",
          notional, t.traded_at⟩]
      else []
    else []
  -- LOW_ACTIVITY_WALLET_BIG_SIZE
  let lowSigs :=
    if stats.recent ≤ LOW_ACTIVITY_MAX_TRADES ∧ notional ≥ BIG_NOTIONAL then
      [⟨t.market_id, wallet, side, "LOW_ACTIVITY_WALLET_BIG_SIZE", "medium",
        notional, t.traded_at⟩]
    else []
  -- REPEAT_ENTRIES: append, pop the front outside the 10-minute window
  let repeatKey := (wallet, t.market_id, side)
  let rw1 :=
    (((alookup st.repeat_windows repeatKey).getD []) ++ [t.traded_at]).dropWhile
      (fun ts => t.traded_at - ts > REPEAT_WINDOW)
  let repeatSigs :=
    if rw1.length ≥ REPEAT_MIN_COUNT then
      [⟨t.market_id, wallet, side, "REPEAT_ENTRIES", "medium",
        (rw1.length : ℚ), t.traded_at⟩]
    else []
  -- THIN_MARKET_IMPACT (history is appended only after the check)
  let history := getPriceHist store earliest st t.market_id
  let thinSigs :=
    match baselinePrice history with
    | none => []
    | some b =>
      -- Python: `if baseline and baseline > 0 and notional >= ...`
      if b ≠ 0 ∧ b > 0 ∧ notional ≥ IMPACT_MIN_NOTIONAL then
        let deviation := |t.price - b| / b
        if deviation ≥ IMPACT_DEVIATION then
          [⟨t.market_id, wallet, side, "THIN_MARKET_IMPACT",
            (if deviation ≥ IMPACT_DEVIATION * 2 then "high" else "medium"),
            deviation, t.traded_at⟩]
        else []
      else []
  let history1 := appendMax50 history (t.traded_at, t.price)
  -- CLUSTERING: append, pop the front before the 5-minute cutoff
  let clusterKey := (t.market_id, side)
  let cw1 :=
    (((alookup st.cluster_windows clusterKey).getD [])
        ++ [(t.traded_at, wallet, notional)]).dropWhile
      (fun e => e.1 < t.traded_at - CLUSTER_WINDOW)
  let walletsInWindow := (cw1.map (fun e => e.2.1)).dedup
  let clusterSigs :=
    if walletsInWindow.length ≥ CLUSTER_MIN_WALLETS then
      let total := (cw1.map (fun e => e.2.2)).sum
      if total ≥ CLUSTER_MIN_NOTIONAL * (walletsInWindow.length : ℚ) then
        [⟨t.market_id, wallet, side, "CLUSTERING", "medium", total,
          t.traded_at⟩]
      else []
    else []
  -- EARLY_POSITIONING
  let earlySigs :=
    match loadWalletStats store.wallet_stats wallet with
    | none => []
    | some sw =>
      if notional ≥ SMART_WALLET_MIN_NOTIONAL then
        let accuracy := sw.accuracy_score.getD 0
        [⟨t.market_id, wallet, side, "EARLY_POSITIONING",
          (if accuracy ≥ 75 / 100 then "high" else "medium"),
          accuracy * notional, t.traded_at⟩]
      else []
  -- wallet recency update (`stats["recent"] += 1`, `first_seen` or'd in)
  let st1 :=
    if t.traded_at ≥ earliest - LOW_ACTIVITY_WINDOW then
      { st with
          wallet_history :=
            aupdate st.wallet_history wallet
              { first_seen :=
                  match stats.first_seen with
                  | some f => some f
                  | none => some t.traded_at
              , recent := stats.recent + 1 } }
    else st
  (freshSigs ++ lowSigs ++ repeatSigs ++ thinSigs ++ clusterSigs ++ earlySigs,
   { st1 with
      price_history := aupdate st1.price_history t.market_id history1
      repeat_windows := aupdate st1.repeat_windows repeatKey rw1
      cluster_windows := aupdate st1.cluster_windows clusterKey cw1 })

/-- The per-trade emissions of `SignalEngine.evaluate`'s loop, one list of
signals per trade in batch order. -/
def evalTrace (store : Store) (earliest : Int) :
    List TradeEnvelope → EngineState → List (List Signal)
  | [], _ => []
  | t :: ts, st =>
    let step := evalStep store earliest st t
    step.1 :: evalTrace store earliest ts step.2

/-- `SignalEngine.evaluate`.  `now` is the engine's construction-time
clock (`SignalEngine.__init__`), which `evaluate` never reads. -/
def evaluate (_now : Int) (store : Store) (trades : List TradeEnvelope) :
    List Signal :=
  let sorted := sortByKey (fun t => t.traded_at) trades
  match sorted with
  | [] => []
  | first :: rest =>
    (evalTrace store first.traded_at (first :: rest) initState).flatten

end PolymarketWatch.Engine

namespace PolymarketWatch.Accuracy

/-! ## services/profiling/accuracy.py — `WalletAccuracyScorer` aggregation

`update_wallet_stats` groups trade outcomes by wallet and upserts
`wallet_stats` rows.  The conflict-update branch of the SQL statement
adds the counters but deliberately leaves `accuracy_score`,
`avg_delta_when_correct` and the streak columns out of its SET list. -/

open PolymarketWatch.Engine (WalletStatsRow)

/-- `TradeOutcome` dataclass. -/
structure TradeOutcome where
  trade_id : Int
  wallet_address : String
  side : String
  price_at_trade : ℚ
  price_15m : Option ℚ
  price_1h : Option ℚ
  price_4h : Option ℚ
  correct_15m : Bool
  correct_1h : Bool
  correct_4h : Bool
  delta_15m : Option ℚ
  delta_1h : Option ℚ
  delta_4h : Option ℚ
  notional : ℚ
deriving DecidableEq, Repr

/-- One wallet's entry of `update_wallet_stats`'s aggregation dict. -/
structure WalletData where
  total_trades : Int
  evaluated_trades : Int
  correct_15m : Int
  correct_1h : Int
  correct_4h : Int
  total_notional : ℚ
  sum_delta_when_correct : ℚ
  correct_count : Int
deriving DecidableEq, Repr

/-- The zero-initialised aggregation entry. -/
def emptyWalletData : WalletData := ⟨0, 0, 0, 0, 0, 0, 0, 0⟩

/-- One outcome folded into its wallet's aggregation entry.  The delta
terms use Python's truthiness of `outcome.delta_4h` (non-None and
non-zero). -/
def addOutcome (d : WalletData) (o : TradeOutcome) : WalletData :=
  { d with
    total_trades := d.total_trades + 1
    evaluated_trades := d.evaluated_trades + 1
    total_notional := d.total_notional + o.notional
    correct_15m := d.correct_15m + (if o.correct_15m then 1 else 0)
    correct_1h := d.correct_1h + (if o.correct_1h then 1 else 0)
    correct_4h := d.correct_4h + (if o.correct_4h then 1 else 0)
    sum_delta_when_correct :=
      d.sum_delta_when_correct +
        (match o.delta_4h with
         | some dl => if o.correct_4h ∧ dl ≠ 0 then dl else 0
         | none => 0)
    correct_count :=
      d.correct_count +
        (match o.delta_4h with
         | some dl => if o.correct_4h ∧ dl ≠ 0 then 1 else 0
         | none => 0) }

/-- The loop body of `update_wallet_stats`'s grouping pass. -/
def groupStep (acc : List (String × WalletData)) (o : TradeOutcome) :
    List (String × WalletData) :=
  match alookup acc o.wallet_address with
  | some d => aupdate acc o.wallet_address (addOutcome d o)
  | none => aupdate acc o.wallet_address (addOutcome emptyWalletData o)

/-- `update_wallet_stats`'s `wallet_data` dict, in insertion order. -/
def groupOutcomes (outcomes : List TradeOutcome) :
    List (String × WalletData) :=
  outcomes.foldl groupStep []

/-- `WalletAccuracyScorer.compute_accuracy_score` (default
`min_evaluated_trades = 5`). -/
def compute_accuracy_score (d : WalletData) : Option ℚ :=
  if d.evaluated_trades < MIN_EVALUATED_TRADES then none
  else
    let acc_15m := (d.correct_15m : ℚ) / (d.evaluated_trades : ℚ)
    let acc_1h := (d.correct_1h : ℚ) / (d.evaluated_trades : ℚ)
    let acc_4h := (d.correct_4h : ℚ) / (d.evaluated_trades : ℚ)
    some (acc_15m * WEIGHT_15M + acc_1h * WEIGHT_1H + acc_4h * WEIGHT_4H)

/-- The per-wallet `INSERT ... ON CONFLICT (wallet_address) DO UPDATE` of
`update_wallet_stats`.  On conflict only the six counter columns are in
the SET list; `accuracy_score`, `avg_delta_when_correct` and the streaks
keep their stored values (the source comments that recalculation is
deferred to the backfill script). -/
def upsertWalletStats (rows : List WalletStatsRow) (wallet : String)
    (d : WalletData) : List WalletStatsRow :=
  if rows.any (fun r => r.wallet_address = wallet) then
    rows.map (fun r =>
      if r.wallet_address = wallet then
        { r with
          total_trades := r.total_trades + d.total_trades
          evaluated_trades := r.evaluated_trades + d.evaluated_trades
          correct_15m := r.correct_15m + d.correct_15m
          correct_1h := r.correct_1h + d.correct_1h
          correct_4h := r.correct_4h + d.correct_4h
          total_notional := r.total_notional + d.total_notional }
      else r)
  else
    rows ++
      [{ wallet_address := wallet
       , total_trades := d.total_trades
       , evaluated_trades := d.evaluated_trades
       , correct_15m := d.correct_15m
       , correct_1h := d.correct_1h
       , correct_4h := d.correct_4h
       , accuracy_score := compute_accuracy_score d
       , avg_delta_when_correct :=
           if d.correct_count > 0 then
             some (d.sum_delta_when_correct / (d.correct_count : ℚ))
           else none
       , total_notional := d.total_notional
       , current_streak := d.correct_4h
       , best_streak := d.correct_4h }]

/-- `WalletAccuracyScorer.update_wallet_stats`, as a store transformer
(the Python function returns the number of upserted wallets; the store
effect is what the claims are about).  An empty outcome list writes
nothing. -/
def update_wallet_stats (rows : List WalletStatsRow)
    (outcomes : List TradeOutcome) : List WalletStatsRow :=
  match outcomes with
  | [] => rows
  | o :: os =>
    (groupOutcomes (o :: os)).foldl
      (fun acc p => upsertWalletStats acc p.1 p.2) rows

/-- A sequence of profiler passes, each one `update_wallet_stats` call. -/
def runProfilerUpdates (rows : List WalletStatsRow)
    (batches : List (List TradeOutcome)) : List WalletStatsRow :=
  batches.foldl update_wallet_stats rows

end PolymarketWatch.Accuracy

namespace PolymarketWatch

/-- A looked-up binding is a member of the association list. -/
theorem alookup_mem {α β : Type} [DecidableEq α] (l : List (α × β)) (k : α)
    (v : β) (h : alookup l k = some v) : (k, v) ∈ l := by
  induction l with
  | nil => simp [alookup] at h
  | cons p rest ih =>
    obtain ⟨pk, pv⟩ := p
    by_cases hp : pk = k
    · subst hp
      obtain rfl : pv = v := by simpa [alookup] using h
      exact List.mem_cons_self _ _
    · simp only [alookup, if_neg hp] at h
      exact List.mem_cons_of_mem _ (ih h)

/-- Every member of an updated association list is an old member or the
fresh binding. -/
theorem mem_aupdate {α β : Type} [DecidableEq α] (l : List (α × β)) (k : α)
    (v : β) (p : α × β) (h : p ∈ aupdate l k v) : p ∈ l ∨ p = (k, v) := by
  induction l with
  | nil => simpa [aupdate] using h
  | cons q rest ih =>
    obtain ⟨qk, qv⟩ := q
    by_cases hq : qk = k
    · subst hq
      simp only [aupdate, if_pos rfl] at h
      rcases List.mem_cons.mp h with h | h
      · right; exact h
      · left; exact List.mem_cons_of_mem _ h
    · simp only [aupdate, if_neg hq] at h
      rcases List.mem_cons.mp h with h | h
      · left; exact h ▸ List.mem_cons_self _ _
      · rcases ih h with h | h
        · left; exact List.mem_cons_of_mem _ h
        · right; exact h

end PolymarketWatch

namespace PolymarketWatch.Accuracy

open PolymarketWatch.Engine (WalletStatsRow)

/-- The counter bounds every aggregation entry satisfies: each correct
counter is between 0 and the evaluated count. -/
abbrev dataBounds (d : WalletData) : Prop :=
  0 ≤ d.evaluated_trades ∧
  0 ≤ d.correct_15m ∧ d.correct_15m ≤ d.evaluated_trades ∧
  0 ≤ d.correct_1h ∧ d.correct_1h ≤ d.evaluated_trades ∧
  0 ≤ d.correct_4h ∧ d.correct_4h ≤ d.evaluated_trades

theorem emptyWalletData_bounds : dataBounds emptyWalletData := by
  refine ⟨?_, ?_, ?_, ?_, ?_, ?_, ?_⟩ <;> simp [emptyWalletData]

theorem addOutcome_bounds (d : WalletData) (o : TradeOutcome)
    (h : dataBounds d) : dataBounds (addOutcome d o) := by
  obtain ⟨h1, h2, h3, h4, h5, h6, h7⟩ := h
  unfold addOutcome
  refine ⟨?_, ?_, ?_, ?_, ?_, ?_, ?_⟩ <;>
    · dsimp only
      repeat' split
      all_goals omega

theorem groupStep_bounds (acc : List (String × WalletData)) (o : TradeOutcome)
    (hacc : ∀ p ∈ acc, dataBounds p.2) :
    ∀ p ∈ groupStep acc o, dataBounds p.2 := by
  intro p hp
  unfold groupStep at hp
  rcases hlk : alookup acc o.wallet_address with _ | d
  · rw [hlk] at hp
    rcases mem_aupdate _ _ _ _ hp with h | h
    · exact hacc p h
    · rw [h]
      exact addOutcome_bounds _ _ emptyWalletData_bounds
  · rw [hlk] at hp
    rcases mem_aupdate _ _ _ _ hp with h | h
    · exact hacc p h
    · rw [h]
      exact addOutcome_bounds _ _ (hacc _ (alookup_mem _ _ _ hlk))

theorem foldl_groupStep_bounds (outcomes : List TradeOutcome) :
    ∀ acc : List (String × WalletData), (∀ p ∈ acc, dataBounds p.2) →
      ∀ p ∈ outcomes.foldl groupStep acc, dataBounds p.2 := by
  induction outcomes with
  | nil => intro acc hacc; simpa using hacc
  | cons o os ih =>
    intro acc hacc
    simp only [List.foldl_cons]
    exact ih _ (groupStep_bounds acc o hacc)

theorem groupOutcomes_bounds (outcomes : List TradeOutcome) :
    ∀ p ∈ groupOutcomes outcomes, dataBounds p.2 :=
  foldl_groupStep_bounds outcomes [] (by simp)

/-- A non-null `compute_accuracy_score` lies in [0, 1]. -/
theorem compute_accuracy_score_mem_unit (d : WalletData)
    (hb : dataBounds d) (a : ℚ) (h : compute_accuracy_score d = some a) :
    0 ≤ a ∧ a ≤ 1 := by
  obtain ⟨h1, h2, h3, h4, h5, h6, h7⟩ := hb
  unfold compute_accuracy_score at h
  split at h
  · exact absurd h (by simp)
  · simp only [Option.some.injEq] at h
    subst h
    rename_i hge
    rw [MIN_EVALUATED_TRADES] at hge
    have he : (5 : ℚ) ≤ (d.evaluated_trades : ℚ) := by exact_mod_cast not_lt.mp hge
    have hepos : (0 : ℚ) < (d.evaluated_trades : ℚ) := by linarith
    have r15a : (0 : ℚ) ≤ (d.correct_15m : ℚ) / (d.evaluated_trades : ℚ) :=
      div_nonneg (by exact_mod_cast h2) (le_of_lt hepos)
    have r1a : (0 : ℚ) ≤ (d.correct_1h : ℚ) / (d.evaluated_trades : ℚ) :=
      div_nonneg (by exact_mod_cast h4) (le_of_lt hepos)
    have r4a : (0 : ℚ) ≤ (d.correct_4h : ℚ) / (d.evaluated_trades : ℚ) :=
      div_nonneg (by exact_mod_cast h6) (le_of_lt hepos)
    have r15b : (d.correct_15m : ℚ) / (d.evaluated_trades : ℚ) ≤ 1 :=
      (div_le_one hepos).mpr (by exact_mod_cast h3)
    have r1b : (d.correct_1h : ℚ) / (d.evaluated_trades : ℚ) ≤ 1 :=
      (div_le_one hepos).mpr (by exact_mod_cast h5)
    have r4b : (d.correct_4h : ℚ) / (d.evaluated_trades : ℚ) ≤ 1 :=
      (div_le_one hepos).mpr (by exact_mod_cast h7)
    rw [WEIGHT_15M, WEIGHT_1H, WEIGHT_4H]
    constructor <;> nlinarith

/-- The invariant the amended claim C4 asserts of every WalletStats row:
a null score below five evaluated trades, and a score inside [0, 1]
whenever one is present. -/
abbrev statsInvariant (r : WalletStatsRow) : Prop :=
  (r.evaluated_trades < MIN_EVALUATED_TRADES → r.accuracy_score = none) ∧
  (∀ a : ℚ, r.accuracy_score = some a → 0 ≤ a ∧ a ≤ 1)

theorem upsertWalletStats_invariant (rows : List WalletStatsRow)
    (wallet : String) (d : WalletData)
    (hrows : ∀ r ∈ rows, statsInvariant r) (hd : dataBounds d) :
    ∀ r ∈ upsertWalletStats rows wallet d, statsInvariant r := by
  intro r hr
  unfold upsertWalletStats at hr
  split at hr
  · rcases List.mem_map.mp hr with ⟨r0, hr0, hmap⟩
    by_cases hw : r0.wallet_address = wallet
    · rw [if_pos hw] at hmap
      obtain ⟨hinv1, hinv2⟩ := hrows r0 hr0
      subst hmap
      refine ⟨?_, ?_⟩
      · intro hlt
        dsimp only at hlt ⊢
        apply hinv1
        have hd1 := hd.1
        rw [MIN_EVALUATED_TRADES] at hlt ⊢
        omega
      · intro a ha
        dsimp only at ha
        exact hinv2 a ha
    · rw [if_neg hw] at hmap
      subst hmap
      exact hrows r0 hr0
  · rcases List.mem_append.mp hr with h | h
    · exact hrows r h
    · simp only [List.mem_singleton] at h
      subst h
      refine ⟨?_, ?_⟩
      · intro hlt
        dsimp only at hlt ⊢
        unfold compute_accuracy_score
        rw [if_pos hlt]
      · intro a ha
        dsimp only at ha
        exact compute_accuracy_score_mem_unit d hd a ha

theorem foldl_upsert_invariant (groups : List (String × WalletData)) :
    ∀ rows : List WalletStatsRow, (∀ r ∈ rows, statsInvariant r) →
      (∀ p ∈ groups, dataBounds p.2) →
      ∀ r ∈ groups.foldl (fun acc p => upsertWalletStats acc p.1 p.2) rows,
        statsInvariant r := by
  induction groups with
  | nil => intro rows hrows _; simpa using hrows
  | cons p ps ih =>
    intro rows hrows hg
    simp only [List.foldl_cons]
    exact ih _
      (upsertWalletStats_invariant rows p.1 p.2 hrows
        (hg p (List.mem_cons_self _ _)))
      (fun q hq => hg q (List.mem_cons_of_mem _ hq))

theorem update_wallet_stats_invariant (rows : List WalletStatsRow)
    (outcomes : List TradeOutcome)
    (hrows : ∀ r ∈ rows, statsInvariant r) :
    ∀ r ∈ update_wallet_stats rows outcomes, statsInvariant r := by
  cases outcomes with
  | nil => simpa [update_wallet_stats] using hrows
  | cons o os =>
    unfold update_wallet_stats
    exact foldl_upsert_invariant _ rows hrows (groupOutcomes_bounds _)

/-- An all-incorrect evaluated outcome for wallet "w", used to exhibit a
row that crosses five evaluated trades across two profiler passes. -/
def c4_outcome (i : Int) : TradeOutcome :=
  { trade_id := i, wallet_address := "w", side := "buy"
  , price_at_trade := 1 / 2, price_15m := none, price_1h := none
  , price_4h := none, correct_15m := false, correct_1h := false
  , correct_4h := false, delta_15m := none, delta_1h := none
  , delta_4h := none, notional := 200 }

/-- C4 counterexample: two `update_wallet_stats` passes of three evaluated
outcomes each leave wallet "w" with `evaluated_trades = 6 ≥ 5` and a NULL
`accuracy_score` — the conflict update never recomputes the score. -/
theorem c4_counterexample_null_score_above_threshold :
    (runProfilerUpdates []
        [[c4_outcome 1, c4_outcome 2, c4_outcome 3],
         [c4_outcome 4, c4_outcome 5, c4_outcome 6]]).map
      (fun r => (r.wallet_address, r.evaluated_trades, r.accuracy_score))
      = [("w", 6, none)] := by
  norm_num [runProfilerUpdates, update_wallet_stats, groupOutcomes, groupStep,
    addOutcome, emptyWalletData, upsertWalletStats, compute_accuracy_score,
    alookup, aupdate, c4_outcome, MIN_EVALUATED_TRADES, WEIGHT_15M, WEIGHT_1H,
    WEIGHT_4H, List.foldl_cons, List.foldl_nil]

/-- C4 amended: after any sequence of `update_wallet_stats` calls starting
from a store whose rows satisfy it, every WalletStats row satisfies:
`accuracy_score` is null whenever `evaluated_trades < 5`, and
`accuracy_score`, whenever non-null, lies in [0, 1].  (The original
claim's second half fails: a conflict update adds to `evaluated_trades`
without recomputing `accuracy_score`, so a row can reach
`evaluated_trades ≥ 5` with a null score.) -/
theorem c4_amended_accuracy_score_invariant (rows : List WalletStatsRow)
    (batches : List (List TradeOutcome))
    (hrows : ∀ r ∈ rows, statsInvariant r) :
    ∀ r ∈ runProfilerUpdates rows batches, statsInvariant r := by
  unfold runProfilerUpdates
  revert hrows
  induction batches generalizing rows with
  | nil => intro hrows; simpa using hrows
  | cons b bs ih =>
    intro hrows
    simp only [List.foldl_cons]
    exact ih _ (update_wallet_stats_invariant rows b hrows)

/-- An all-correct evaluated outcome for wallet "w". -/
def c4_outcome_correct (i : Int) : TradeOutcome :=
  { trade_id := i, wallet_address := "w", side := "buy"
  , price_at_trade := 1 / 2, price_15m := some (6 / 10)
  , price_1h := some (6 / 10), price_4h := some (6 / 10)
  , correct_15m := true, correct_1h := true, correct_4h := true
  , delta_15m := some (1 / 10), delta_1h := some (1 / 10)
  , delta_4h := some (1 / 10), notional := 200 }

/-- C4 witness: the amended invariant instantiated at the empty store and
one five-outcome pass, whose inserted row carries score 1 ∈ [0, 1]. -/
theorem c4_amended_accuracy_score_invariant_witness :
    statsInvariant
      { wallet_address := "w", total_trades := 5, evaluated_trades := 5
      , correct_15m := 5, correct_1h := 5, correct_4h := 5
      , accuracy_score := some 1, avg_delta_when_correct := some (1 / 10)
      , total_notional := 1000, current_streak := 5, best_streak := 5 } :=
  c4_amended_accuracy_score_invariant []
    [[c4_outcome_correct 1, c4_outcome_correct 2, c4_outcome_correct 3,
      c4_outcome_correct 4, c4_outcome_correct 5]]
    (by intro r hr; exact absurd hr (List.not_mem_nil r))
    _
    (by
      norm_num [runProfilerUpdates, update_wallet_stats, groupOutcomes,
        groupStep, addOutcome, emptyWalletData, upsertWalletStats,
        compute_accuracy_score, alookup, aupdate, c4_outcome_correct,
        MIN_EVALUATED_TRADES, WEIGHT_15M, WEIGHT_1H, WEIGHT_4H,
        List.foldl_cons, List.foldl_nil])

end PolymarketWatch.Accuracy

namespace PolymarketWatch.Scoring

/-! ## services/scoring/aggregator.py

`ScoringAggregator.process` selects the signals of the last two hours,
groups them by `(market_id, side)`, scores each group, and upserts one
Alert row per qualifying group under the unique key
`(market_id, side, event_type='scoring')`.  Alert rows are modelled by
the columns the claims constrain (key, `status`, `score`); `why_json`
and `message` are further deterministic functions of the same aggregates
and are not modelled. -/

/-- A row of the `signal_events` table (the columns the aggregator reads). -/
structure SignalEventRow where
  id : Int
  market_id : Option Int
  wallet_address : Option String
  side : Option String
  signal_type : String
  severity : Option String
  score : Option ℚ
  observed_at : Option Int
  created_at : Int
deriving DecidableEq, Repr

/-- A row of the `alerts` table (key columns plus status and score). -/
structure AlertRow where
  market_id : Option Int
  side : Option String
  event_type : String
  status : String
  score : ℚ
deriving DecidableEq, Repr

/-- The slice of the store the aggregator reads and writes. -/
structure ScoringStore where
  signals : List SignalEventRow
  alerts : List AlertRow
deriving DecidableEq, Repr

/-- `window = timedelta(hours=2)` in seconds. -/
def WINDOW_SECONDS : Int := 2 * 3600
/-- `bonus_per_extra_type = 2.5`. -/
def bonus_per_extra_type : ℚ := 25 / 10
/-- `high_threshold = 12.0`. -/
def high_threshold : ℚ := 12
/-- `watch_threshold = 4.0`. -/
def watch_threshold : ℚ := 4

/-- The default `weights` dict, with `.get(signal_type, 1.0)`. -/
def signalWeight (t : String) : ℚ :=
  if t = "FRESH_WALLET_BIG_SIZE" then 5
  else if t = "LOW_ACTIVITY_WALLET_BIG_SIZE" then 3
  else if t = "REPEAT_ENTRIES" then 2
  else if t = "THIN_MARKET_IMPACT" then 4
  else if t = "CLUSTERING" then 35 / 10
  else if t = "EARLY_POSITIONING" then 6
  else 1

/-- `ScoringAggregator._severity_multiplier`: 1.0 on a falsy severity,
else the default multipliers dict looked up on the lower-cased value
with default 1.0. -/
def severityMultiplier (sev : Option String) : ℚ :=
  match sev with
  | none => 1
  | some s =>
    if s = "" then 1
    else
      let ls := toLowerStr s
      if ls = "high" then 2
      else if ls = "medium" then 1
      else if ls = "low" then 1 / 2
      else 1

/-- `ScoringAggregator._score_signal`. -/
def scoreSignal (s : SignalEventRow) : ℚ :=
  signalWeight s.signal_type * severityMultiplier s.severity

/-- The SQL window filter
`(observed_at >= cutoff) | (created_at >= cutoff)`; a NULL `observed_at`
makes its disjunct false. -/
def inWindow (cutoff : Int) (s : SignalEventRow) : Bool :=
  (match s.observed_at with
   | some t => decide (t ≥ cutoff)
   | none => false) || decide (s.created_at ≥ cutoff)

/-- `ScoringAggregator._group_signals`'s key. -/
def groupKey (s : SignalEventRow) : Option Int × Option String :=
  (s.market_id, s.side)

/-- One signal appended to its `(market_id, side)` group. -/
def addToGroup
    (acc : List ((Option Int × Option String) × List SignalEventRow))
    (s : SignalEventRow) :
    List ((Option Int × Option String) × List SignalEventRow) :=
  match alookup acc (groupKey s) with
  | some l => aupdate acc (groupKey s) (l ++ [s])
  | none => aupdate acc (groupKey s) [s]

/-- `ScoringAggregator._group_signals` (dict in insertion order). -/
def groupSignals (signals : List SignalEventRow) :
    List ((Option Int × Option String) × List SignalEventRow) :=
  signals.foldl addToGroup []

/-- `ScoringAggregator._compute_group_score`: weighted base plus the
distinct-type bonus. -/
def computeGroupScore (signals : List SignalEventRow) : ℚ :=
  (signals.map scoreSignal).sum +
    bonus_per_extra_type *
      ((max ((signals.map SignalEventRow.signal_type).dedup.length - 1 : Int) 0 : Int) : ℚ)

/-- `ScoringAggregator._status_for_score`. -/
def statusForScore (score : ℚ) : String :=
  if score ≥ high_threshold then "high" else "watch"

/-- `AggregatedSignals` dataclass (minus the unmodelled `why_json`). -/
structure AggregatedSignals where
  market_id : Option Int
  side : Option String
  score : ℚ
  status : String
deriving DecidableEq, Repr

/-- One group turned into an aggregate, or dropped below the watch
threshold. -/
def aggregateGroup
    (g : (Option Int × Option String) × List SignalEventRow) :
    Option AggregatedSignals :=
  let score := computeGroupScore g.2
  if score < watch_threshold then none
  else some ⟨g.1.1, g.1.2, score, statusForScore score⟩

/-- `ScoringAggregator.aggregate` at evaluation time `now`. -/
def aggregate (signals : List SignalEventRow) (now : Int) :
    List AggregatedSignals :=
  let cutoff := now - WINDOW_SECONDS
  (groupSignals (signals.filter (inWindow cutoff))).filterMap aggregateGroup

/-- The Alert row an aggregate inserts. -/
def mkAlertRow (agg : AggregatedSignals) : AlertRow :=
  ⟨agg.market_id, agg.side, "scoring", agg.status, agg.score⟩

/-- One row of `upsert_alerts`'s
`INSERT ... ON CONFLICT (market_id, side, event_type) DO UPDATE`: the
first row with the conflicting key takes the new `status` and `score`
(the SET list), else the row is appended. -/
def upsertAlert : List AlertRow → AggregatedSignals → List AlertRow
  | [], agg => [mkAlertRow agg]
  | a :: rest, agg =>
    if a.market_id = agg.market_id ∧ a.side = agg.side ∧
        a.event_type = "scoring" then
      { a with status := agg.status, score := agg.score } :: rest
    else a :: upsertAlert rest agg

/-- `ScoringAggregator.upsert_alerts` over a list of aggregates.  The
multi-row SQL statement touches one distinct key per value row; the
sequential fold has the same effect. -/
def upsert_alerts (alerts : List AlertRow)
    (aggregates : List AggregatedSignals) : List AlertRow :=
  aggregates.foldl upsertAlert alerts

/-- `ScoringAggregator.process`, with the evaluation time made explicit
(the Python default is `datetime.now`). -/
def process (st : ScoringStore) (now : Int) : ScoringStore :=
  { st with alerts := upsert_alerts st.alerts (aggregate st.signals now) }

/-- The unique-index key of an Alert row. -/
def alertKey (a : AlertRow) : Option Int × Option String × String :=
  (a.market_id, a.side, a.event_type)

/-- The Alert key an aggregate upserts under. -/
def aggAlertKey (agg : AggregatedSignals) :
    Option Int × Option String × String :=
  (agg.market_id, agg.side, "scoring")

/-- The store invariant the `uq_alerts_market_side_event` unique index
enforces: at most one Alert row per key. -/
abbrev uniqueAlertKeys (alerts : List AlertRow) : Prop :=
  (alerts.map alertKey).Nodup

end PolymarketWatch.Scoring

namespace PolymarketWatch

/-- A key is absent from the association list iff its lookup is `none`. -/
theorem alookup_eq_none_iff {α β : Type} [DecidableEq α]
    (l : List (α × β)) (k : α) :
    alookup l k = none ↔ k ∉ l.map Prod.fst := by
  induction l with
  | nil => simp [alookup]
  | cons p rest ih =>
    obtain ⟨pk, pv⟩ := p
    by_cases hp : pk = k
    · subst hp
      simp [alookup]
    · simp [alookup, if_neg hp, ih, Ne.symm hp]

/-- Updating an absent key appends the binding. -/
theorem aupdate_of_lookup_none {α β : Type} [DecidableEq α]
    (l : List (α × β)) (k : α) (v : β) (h : alookup l k = none) :
    aupdate l k v = l ++ [(k, v)] := by
  induction l with
  | nil => simp [aupdate]
  | cons p rest ih =>
    obtain ⟨pk, pv⟩ := p
    by_cases hp : pk = k
    · subst hp
      simp [alookup] at h
    · simp only [alookup, if_neg hp] at h
      simp [aupdate, if_neg hp, ih h]

/-- Updating a present key leaves the key sequence unchanged. -/
theorem aupdate_keys_of_lookup_some {α β : Type} [DecidableEq α]
    (l : List (α × β)) (k : α) (v w : β) (h : alookup l k = some w) :
    (aupdate l k v).map Prod.fst = l.map Prod.fst := by
  induction l with
  | nil => simp [alookup] at h
  | cons p rest ih =>
    obtain ⟨pk, pv⟩ := p
    by_cases hp : pk = k
    · subst hp
      simp [aupdate]
    · simp only [alookup, if_neg hp] at h
      simp [aupdate, if_neg hp, ih h]

end PolymarketWatch

namespace PolymarketWatch.Scoring

/-- `addToGroup` keeps the group keys duplicate-free. -/
theorem addToGroup_keys_nodup
    (acc : List ((Option Int × Option String) × List SignalEventRow))
    (s : SignalEventRow) (h : (acc.map Prod.fst).Nodup) :
    ((addToGroup acc s).map Prod.fst).Nodup := by
  unfold addToGroup
  rcases hlk : alookup acc (groupKey s) with _ | l
  · rw [aupdate_of_lookup_none _ _ _ hlk]
    have habs := (alookup_eq_none_iff acc (groupKey s)).mp hlk
    simp only [List.map_append, List.map_cons, List.map_nil]
    rw [List.nodup_append]
    refine ⟨h, List.nodup_singleton _, ?_⟩
    intro x hx hxk
    simp only [List.mem_singleton] at hxk
    subst hxk
    exact habs hx
  · rw [aupdate_keys_of_lookup_some _ _ _ _ hlk]
    exact h

/-- The grouping pass yields one entry per `(market_id, side)`. -/
theorem foldl_addToGroup_keys_nodup (signals : List SignalEventRow) :
    ∀ acc, (acc.map Prod.fst).Nodup →
      ((signals.foldl addToGroup acc).map Prod.fst).Nodup := by
  induction signals with
  | nil => intro acc h; simpa using h
  | cons s ss ih =>
    intro acc h
    simp only [List.foldl_cons]
    exact ih _ (addToGroup_keys_nodup acc s h)

theorem groupSignals_keys_nodup (signals : List SignalEventRow) :
    ((groupSignals signals).map Prod.fst).Nodup :=
  foldl_addToGroup_keys_nodup signals [] (by simp)

/-- The `(market_id, side)` pairs of the surviving aggregates form a
sublist of the group keys. -/
theorem filterMap_aggregateGroup_keys_sublist
    (groups : List ((Option Int × Option String) × List SignalEventRow)) :
    ((groups.filterMap aggregateGroup).map
        (fun a => (a.market_id, a.side))).Sublist
      (groups.map Prod.fst) := by
  induction groups with
  | nil => simp
  | cons g gs ih =>
    simp only [List.filterMap_cons]
    rcases h : aggregateGroup g with _ | a
    · simp only [List.map_cons]
      exact ih.cons _
    · have hk : (a.market_id, a.side) = g.1 := by
        simp only [aggregateGroup] at h
        split at h
        · exact absurd h (by simp)
        · simp only [Option.some.injEq] at h
          subst h
          exact rfl
      simp only [List.map_cons, hk]
      exact ih.cons₂ _

/-- Distinct aggregates carry distinct Alert keys. -/
theorem aggregate_keys_nodup (signals : List SignalEventRow) (now : Int) :
    ((aggregate signals now).map aggAlertKey).Nodup := by
  unfold aggregate
  have hn := groupSignals_keys_nodup
    (signals.filter (inWindow (now - WINDOW_SECONDS)))
  have hsub := filterMap_aggregateGroup_keys_sublist
    (groupSignals (signals.filter (inWindow (now - WINDOW_SECONDS))))
  have h2 := hsub.nodup hn
  have hcomp :
      ((groupSignals (signals.filter (inWindow (now - WINDOW_SECONDS)))).filterMap
          aggregateGroup).map aggAlertKey
        = (((groupSignals (signals.filter (inWindow (now - WINDOW_SECONDS)))).filterMap
            aggregateGroup).map (fun a => (a.market_id, a.side))).map
          (fun k => (k.1, k.2, "scoring")) := by
    rw [List.map_map]
    rfl
  rw [hcomp]
  refine List.Nodup.map ?_ h2
  intro k1 k2 hk
  obtain ⟨m1, s1⟩ := k1
  obtain ⟨m2, s2⟩ := k2
  simpa using hk

/-- The Alert rows carrying a given unique-index key. -/
def keyFilter (K : Option Int × Option String × String)
    (alerts : List AlertRow) : List AlertRow :=
  alerts.filter (fun a => alertKey a = K)

/-- The SQL conflict condition is key equality. -/
theorem alertKey_eq_iff (a : AlertRow) (agg : AggregatedSignals) :
    alertKey a = aggAlertKey agg ↔
      (a.market_id = agg.market_id ∧ a.side = agg.side ∧
        a.event_type = "scoring") := by
  unfold alertKey aggAlertKey
  simp

/-- The inserted row carries the aggregate's key. -/
theorem alertKey_mkAlertRow (agg : AggregatedSignals) :
    alertKey (mkAlertRow agg) = aggAlertKey agg := rfl

/-- The conflict update's SET list leaves the key columns unchanged. -/
theorem alertKey_update (a : AlertRow) (agg : AggregatedSignals) :
    alertKey { a with status := agg.status, score := agg.score }
      = alertKey a := rfl

/-- `keyFilter` unfolded one row at a time. -/
theorem keyFilter_cons (K : Option Int × Option String × String)
    (a : AlertRow) (rest : List AlertRow) :
    keyFilter K (a :: rest)
      = if alertKey a = K then a :: keyFilter K rest else keyFilter K rest := by
  unfold keyFilter
  rw [List.filter_cons]
  by_cases h : alertKey a = K
  · rw [if_pos h, if_pos (by simp [h])]
  · rw [if_neg h, if_neg (by simp [h])]

theorem keyFilter_eq_nil (K : Option Int × Option String × String)
    (alerts : List AlertRow) (h : K ∉ alerts.map alertKey) :
    keyFilter K alerts = [] := by
  induction alerts with
  | nil => rfl
  | cons a rest ih =>
    simp only [List.map_cons, List.mem_cons, not_or] at h
    rw [keyFilter_cons, if_neg (fun hk => h.1 hk.symm)]
    exact ih h.2

/-- An upsert on a key the filter does not select preserves the filter. -/
theorem upsertAlert_keyFilter_other (alerts : List AlertRow)
    (agg : AggregatedSignals) (K : Option Int × Option String × String)
    (hK : aggAlertKey agg ≠ K) :
    keyFilter K (upsertAlert alerts agg) = keyFilter K alerts := by
  induction alerts with
  | nil =>
    show keyFilter K [mkAlertRow agg] = keyFilter K []
    rw [keyFilter_cons, if_neg (by rw [alertKey_mkAlertRow]; exact hK)]
  | cons a rest ih =>
    unfold upsertAlert
    by_cases hc : a.market_id = agg.market_id ∧ a.side = agg.side ∧
        a.event_type = "scoring"
    · rw [if_pos hc]
      have hak : alertKey a = aggAlertKey agg := (alertKey_eq_iff a agg).mpr hc
      rw [keyFilter_cons, keyFilter_cons, alertKey_update, hak,
        if_neg hK, if_neg hK]
    · rw [if_neg hc, keyFilter_cons, keyFilter_cons, ih]

/-- Upserting into a store with unique keys leaves exactly the upserted
row under the aggregate's key. -/
theorem upsertAlert_keyFilter_self (alerts : List AlertRow)
    (agg : AggregatedSignals) (hu : uniqueAlertKeys alerts) :
    keyFilter (aggAlertKey agg) (upsertAlert alerts agg)
      = [mkAlertRow agg] := by
  induction alerts with
  | nil =>
    show keyFilter (aggAlertKey agg) [mkAlertRow agg] = [mkAlertRow agg]
    rw [keyFilter_cons, if_pos (alertKey_mkAlertRow agg)]
    rfl
  | cons a rest ih =>
    have hu' : (alertKey a :: rest.map alertKey).Nodup := by
      simpa [uniqueAlertKeys] using hu
    obtain ⟨hnotin, hrest⟩ := List.nodup_cons.mp hu'
    unfold upsertAlert
    by_cases hc : a.market_id = agg.market_id ∧ a.side = agg.side ∧
        a.event_type = "scoring"
    · rw [if_pos hc]
      have hak : alertKey a = aggAlertKey agg := (alertKey_eq_iff a agg).mpr hc
      have hrow : ({ a with status := agg.status, score := agg.score } : AlertRow)
          = mkAlertRow agg := by
        obtain ⟨h1, h2, h3⟩ := hc
        unfold mkAlertRow
        cases a
        simp only at h1 h2 h3
        simp [h1, h2, h3]
      rw [keyFilter_cons, alertKey_update, if_pos hak, hrow,
        keyFilter_eq_nil _ _ (by rw [← hak]; exact hnotin)]
    · rw [if_neg hc]
      have hak : alertKey a ≠ aggAlertKey agg := by
        intro hcontra
        exact hc ((alertKey_eq_iff a agg).mp hcontra)
      rw [keyFilter_cons, if_neg hak]
      exact ih hrest

/-- Keys present after an upsert were present before or are the upserted
key. -/
theorem upsertAlert_keys_subset (alerts : List AlertRow)
    (agg : AggregatedSignals) :
    ∀ k ∈ (upsertAlert alerts agg).map alertKey,
      k ∈ alerts.map alertKey ∨ k = aggAlertKey agg := by
  induction alerts with
  | nil =>
    intro k hk
    unfold upsertAlert at hk
    simp only [List.map_cons, List.map_nil, List.mem_singleton] at hk
    right
    rw [hk]
    exact alertKey_mkAlertRow agg
  | cons a rest ih =>
    intro k hk
    unfold upsertAlert at hk
    by_cases hc : a.market_id = agg.market_id ∧ a.side = agg.side ∧
        a.event_type = "scoring"
    · rw [if_pos hc] at hk
      simp only [List.map_cons, List.mem_cons] at hk
      rcases hk with hk | hk
      · left
        simp only [List.map_cons, List.mem_cons]
        left
        rw [hk]
        exact alertKey_update a agg
      · left
        simp only [List.map_cons, List.mem_cons]
        right
        exact hk
    · rw [if_neg hc] at hk
      simp only [List.map_cons, List.mem_cons] at hk
      rcases hk with hk | hk
      · left
        simp only [List.map_cons, List.mem_cons]
        left
        exact hk
      · rcases ih k hk with h | h
        · left
          simp only [List.map_cons, List.mem_cons]
          right
          exact h
        · right
          exact h

/-- The unique index survives an upsert. -/
theorem upsertAlert_unique (alerts : List AlertRow)
    (agg : AggregatedSignals) (hu : uniqueAlertKeys alerts) :
    uniqueAlertKeys (upsertAlert alerts agg) := by
  induction alerts with
  | nil =>
    unfold upsertAlert
    simp [uniqueAlertKeys]
  | cons a rest ih =>
    have hu' : (alertKey a :: rest.map alertKey).Nodup := by
      simpa [uniqueAlertKeys] using hu
    obtain ⟨hnotin, hrest⟩ := List.nodup_cons.mp hu'
    unfold upsertAlert
    by_cases hc : a.market_id = agg.market_id ∧ a.side = agg.side ∧
        a.event_type = "scoring"
    · rw [if_pos hc]
      show ((_ :: rest).map alertKey).Nodup
      simp only [List.map_cons, alertKey_update]
      exact List.nodup_cons.mpr ⟨hnotin, hrest⟩
    · rw [if_neg hc]
      have hak : alertKey a ≠ aggAlertKey agg := by
        intro hcontra
        exact hc ((alertKey_eq_iff a agg).mp hcontra)
      show ((a :: upsertAlert rest agg).map alertKey).Nodup
      simp only [List.map_cons]
      refine List.nodup_cons.mpr ⟨?_, ih hrest⟩
      intro hmem
      rcases upsertAlert_keys_subset rest agg _ hmem with h | h
      · exact hnotin h
      · exact hak h

/-- An upsert whose key's only stored row already equals the upserted row
changes nothing. -/
theorem upsertAlert_id (alerts : List AlertRow) (agg : AggregatedSignals)
    (h : keyFilter (aggAlertKey agg) alerts = [mkAlertRow agg]) :
    upsertAlert alerts agg = alerts := by
  induction alerts with
  | nil => simp [keyFilter] at h
  | cons a rest ih =>
    unfold upsertAlert
    by_cases hc : a.market_id = agg.market_id ∧ a.side = agg.side ∧
        a.event_type = "scoring"
    · rw [if_pos hc]
      have hak : alertKey a = aggAlertKey agg := (alertKey_eq_iff a agg).mpr hc
      rw [keyFilter_cons, if_pos hak] at h
      simp only [List.cons.injEq] at h
      obtain ⟨ha, -⟩ := h
      rw [ha]
      rfl
    · rw [if_neg hc]
      have hak : alertKey a ≠ aggAlertKey agg := by
        intro hcontra
        exact hc ((alertKey_eq_iff a agg).mp hcontra)
      rw [keyFilter_cons, if_neg hak] at h
      rw [ih h]

/-- A fold of upserts whose keys avoid `K` preserves `K`'s filter. -/
theorem upsert_alerts_keyFilter_other (A : List AggregatedSignals) :
    ∀ (alerts : List AlertRow) (K : Option Int × Option String × String),
      (∀ agg ∈ A, aggAlertKey agg ≠ K) →
      keyFilter K (upsert_alerts alerts A) = keyFilter K alerts := by
  induction A with
  | nil => intro alerts K _; rfl
  | cons agg As ih =>
    intro alerts K hK
    unfold upsert_alerts
    simp only [List.foldl_cons]
    rw [show (List.foldl upsertAlert (upsertAlert alerts agg) As)
        = upsert_alerts (upsertAlert alerts agg) As from rfl]
    rw [ih _ K (fun a ha => hK a (List.mem_cons_of_mem _ ha))]
    exact upsertAlert_keyFilter_other alerts agg K
      (hK agg (List.mem_cons_self _ _))

/-- After one aggregation pass each aggregate's key holds exactly its
fresh row, and the unique index still holds. -/
theorem upsert_alerts_characterization (A : List AggregatedSignals) :
    ∀ alerts : List AlertRow, uniqueAlertKeys alerts →
      (A.map aggAlertKey).Nodup →
      uniqueAlertKeys (upsert_alerts alerts A) ∧
      ∀ agg ∈ A, keyFilter (aggAlertKey agg) (upsert_alerts alerts A)
        = [mkAlertRow agg] := by
  induction A with
  | nil =>
    intro alerts hu _
    exact ⟨hu, by intro agg h; exact absurd h (List.not_mem_nil agg)⟩
  | cons agg As ih =>
    intro alerts hu hA
    simp only [List.map_cons] at hA
    obtain ⟨hA1, hA2⟩ := List.nodup_cons.mp hA
    have hu1 : uniqueAlertKeys (upsertAlert alerts agg) :=
      upsertAlert_unique alerts agg hu
    obtain ⟨hu2, hchar⟩ := ih (upsertAlert alerts agg) hu1 hA2
    have hfold : upsert_alerts alerts (agg :: As)
        = upsert_alerts (upsertAlert alerts agg) As := by
      unfold upsert_alerts
      simp [List.foldl_cons]
    refine ⟨by rw [hfold]; exact hu2, ?_⟩
    intro agg' hagg'
    rcases List.mem_cons.mp hagg' with h | h
    · rw [hfold, h]
      rw [upsert_alerts_keyFilter_other As (upsertAlert alerts agg)
        (aggAlertKey agg)
        (fun a ha => by
          intro hcontra
          exact hA1 (hcontra ▸ List.mem_map_of_mem aggAlertKey ha))]
      exact upsertAlert_keyFilter_self alerts agg hu
    · rw [hfold]
      exact hchar agg' h

/-- Re-running the upsert pass on unchanged aggregates is the identity. -/
theorem upsert_alerts_id (A : List AggregatedSignals) :
    ∀ alerts : List AlertRow,
      (∀ agg ∈ A, keyFilter (aggAlertKey agg) alerts = [mkAlertRow agg]) →
      upsert_alerts alerts A = alerts := by
  induction A with
  | nil => intro alerts _; rfl
  | cons agg As ih =>
    intro alerts h
    have h1 : upsertAlert alerts agg = alerts :=
      upsertAlert_id alerts agg (h agg (List.mem_cons_self _ _))
    unfold upsert_alerts
    simp only [List.foldl_cons, h1]
    exact ih alerts (fun a ha => h a (List.mem_cons_of_mem _ ha))

/-- C3: For every store whose alerts respect the unique index, running
the scoring aggregator's aggregate-and-upsert pass twice at the same
evaluation time with no new signals in between yields the same alert
rows as running it once — no additional rows and unchanged
(status, score) for every (market_id, side, event_type='scoring') key —
and at most one alert row exists per such key. -/
theorem c3_scoring_process_idempotent (st : ScoringStore) (now : Int)
    (hu : uniqueAlertKeys st.alerts) :
    process (process st now) now = process st now ∧
    uniqueAlertKeys (process st now).alerts := by
  have hA := aggregate_keys_nodup st.signals now
  obtain ⟨hu1, hchar⟩ :=
    upsert_alerts_characterization (aggregate st.signals now) st.alerts hu hA
  constructor
  · show process ⟨st.signals, upsert_alerts st.alerts (aggregate st.signals now)⟩ now = _
    unfold process
    simp only [ScoringStore.mk.injEq]
    exact ⟨trivial, upsert_alerts_id (aggregate st.signals now) _ hchar⟩
  · exact hu1

/-- C3 witness: a concrete store — one fresh-whale signal on (market 1,
buy) and its already-upserted alert — on which the pass is verified
idempotent. -/
theorem c3_scoring_process_idempotent_witness :
    (process (process ⟨[⟨1, some 1, some "w", some "buy",
        "FRESH_WALLET_BIG_SIZE", some "high", some 1200, some 7000, 7000⟩],
        []⟩ 7100) 7100)
      = process ⟨[⟨1, some 1, some "w", some "buy",
        "FRESH_WALLET_BIG_SIZE", some "high", some 1200, some 7000, 7000⟩],
        []⟩ 7100 ∧
    uniqueAlertKeys (process ⟨[⟨1, some 1, some "w", some "buy",
        "FRESH_WALLET_BIG_SIZE", some "high", some 1200, some 7000, 7000⟩],
        []⟩ 7100).alerts :=
  c3_scoring_process_idempotent _ 7100 (by simp [uniqueAlertKeys])

end PolymarketWatch.Scoring

namespace PolymarketWatch.Ingestion

/-! ## services/ingestion/client.py and services/ingestion/worker.py

The trade-feed normalization (`IngestionClient.fetch_recent_trades`),
the `ON CONFLICT DO NOTHING` insert (`insert_trades`), the per-market
cursor, and `poll_market_trades`.  Upstream JSON items are modelled by
the alternative fields the client reads; `_parse_datetime` itself is not
re-modelled — `parsed_timestamp` stands for its result on the item's
timestamp fields (`None` for an unparsable or absent timestamp).
Cursor values, ISO strings in AppState, are modelled as the timestamps
they encode. -/

open PolymarketWatch.Engine (TradeRow)

/-- One upstream trade-feed item, reduced to the fields
`fetch_recent_trades` reads. -/
structure RawTrade where
  side : Option String
  type_field : Option String
  proxyWallet : Option String
  wallet : Option String
  wallet_address : Option String
  address : Option String
  shares : Option ℚ
  amount : Option ℚ
  size : Option ℚ
  price : Option ℚ
  fill_price : Option ℚ
  avg_price : Option ℚ
  parsed_timestamp : Option Int
  transactionHash : Option String
  hash_field : Option String
  id_field : Option String
  txid : Option String
deriving DecidableEq, Repr

/-- Python's `a or b or ... or dflt` over string fields (`None` and the
empty string are falsy). -/
def firstTruthyStr : List (Option String) → String → String
  | [], dflt => dflt
  | o :: rest, dflt =>
    match o with
    | some s => if s = "" then firstTruthyStr rest dflt else s
    | none => firstTruthyStr rest dflt

/-- Python's `a or b or ...` over string fields with no default. -/
def firstTruthyStrOpt : List (Option String) → Option String
  | [] => none
  | o :: rest =>
    match o with
    | some s => if s = "" then firstTruthyStrOpt rest else some s
    | none => firstTruthyStrOpt rest

/-- Python's `Decimal(str(a or b or ... or "0"))` over numeric fields
(zero is falsy). -/
def firstTruthyQ : List (Option ℚ) → ℚ
  | [] => 0
  | o :: rest =>
    match o with
    | some x => if x = 0 then firstTruthyQ rest else x
    | none => firstTruthyQ rest

/-- A normalized trade dict as built by `fetch_recent_trades`. -/
structure NormalizedTrade where
  market_external_id : String
  wallet_address : Option String
  side : String
  shares : ℚ
  price : ℚ
  traded_at : Option Int
  trade_hash : Option String
deriving DecidableEq, Repr

/-- The per-item normalization of `fetch_recent_trades`. -/
def normalizeRaw (market_id : String) (item : RawTrade) : NormalizedTrade :=
  { market_external_id := market_id
  , wallet_address := firstTruthyStrOpt
      [item.proxyWallet, item.wallet, item.wallet_address, item.address]
  , side := toLowerStr (firstTruthyStr [item.side, item.type_field] "unknown")
  , shares := firstTruthyQ [item.shares, item.amount, item.size]
  , price := firstTruthyQ [item.price, item.fill_price, item.avg_price]
  , traded_at := item.parsed_timestamp
  , trade_hash := firstTruthyStrOpt
      [item.transactionHash, item.hash_field, item.id_field, item.txid] }

/-- `fetch_recent_trades`'s normalization pass: each item normalized,
kept only when it has a wallet and a parsable timestamp. -/
def fetch_recent_trades_normalize (market_id : String)
    (items : List RawTrade) : List NormalizedTrade :=
  (items.map (normalizeRaw market_id)).filter
    (fun t => t.wallet_address.isSome && t.traded_at.isSome)

/-- `MarketSnapshot` dataclass. -/
structure MarketSnapshot where
  id : Int
  external_id : String
  status : String
  resolved_at : Option Int
deriving DecidableEq, Repr

/-- The ingestion worker's slice of the store: the trades table and the
AppState cursor rows. -/
structure IngestStore where
  trades : List TradeRow
  cursors : List (String × Int)
deriving DecidableEq, Repr

def CURSOR_PREFIX : String := "cursor:trades:"

/-- `_load_cursor`. -/
def loadCursor (st : IngestStore) (market_external_id : String) :
    Option Int :=
  alookup st.cursors (CURSOR_PREFIX ++ market_external_id)

/-- `_store_cursor` (its own `session.commit()`). -/
def storeCursor (st : IngestStore) (market_external_id : String)
    (value : Int) : IngestStore :=
  { st with cursors :=
      aupdate st.cursors (CURSOR_PREFIX ++ market_external_id) value }

/-- The value-building loop of `insert_trades`: skip trades of unknown
markets or without a timestamp, keep the running maximum `latest_at`. -/
def buildStep (markets : List (String × MarketSnapshot))
    (acc : List TradeRow × Option Int) (t : NormalizedTrade) :
    List TradeRow × Option Int :=
  match alookup markets t.market_external_id with
  | none => acc
  | some m =>
    match t.traded_at with
    | none => acc
    | some ts =>
      let latest :=
        match acc.2 with
        | none => some ts
        | some l => if ts > l then some ts else some l
      (acc.1 ++
        [{ market_id := m.id
         , wallet_address := t.wallet_address.getD ""
         , side := t.side, shares := t.shares, price := t.price
         , traded_at := ts, trade_hash := t.trade_hash }], latest)

/-- The `values` list and `latest_at` of `insert_trades`. -/
def buildValues (markets : List (String × MarketSnapshot))
    (trades : List NormalizedTrade) : List TradeRow × Option Int :=
  trades.foldl (buildStep markets) ([], none)

/-- A row conflicts when it hits the composite dedupe index
`(market_id, wallet_address, traded_at, side, shares, price)` or the
unique `trade_hash` index (NULL hashes never conflict). -/
def tradeConflicts (existing : List TradeRow) (v : TradeRow) : Bool :=
  existing.any (fun e =>
    (decide (e.market_id = v.market_id) &&
     decide (e.wallet_address = v.wallet_address) &&
     decide (e.traded_at = v.traded_at) &&
     decide (e.side = v.side) &&
     decide (e.shares = v.shares) &&
     decide (e.price = v.price)) ||
    (match e.trade_hash, v.trade_hash with
     | some h1, some h2 => decide (h1 = h2)
     | _, _ => false))

/-- The rows `ON CONFLICT DO NOTHING` accepts, in statement order (a row
also conflicts with rows accepted earlier in the same statement). -/
def insertAccepted (existing : List TradeRow) (values : List TradeRow) :
    List TradeRow :=
  values.foldl
    (fun acc v => if tradeConflicts (existing ++ acc) v then acc else acc ++ [v])
    []

/-- The result of `insert_trades` / `poll_market_trades`. -/
structure InsertResult where
  inserted : Int
  latest_at : Option Int
  store : IngestStore
deriving DecidableEq, Repr

/-- `insert_trades`: build the values, insert with
`ON CONFLICT DO NOTHING`, commit, and report the accepted row count and
the batch's `latest_at`. -/
def insert_trades (st : IngestStore) (trades : List NormalizedTrade)
    (markets : List (String × MarketSnapshot)) : InsertResult :=
  let built := buildValues markets trades
  match built.1 with
  | [] => ⟨0, none, st⟩
  | v :: vs =>
    let accepted := insertAccepted st.trades (v :: vs)
    ⟨accepted.length, built.2, { st with trades := st.trades ++ accepted }⟩

/-- `poll_market_trades` for one market and one fetched batch. -/
def poll_market_trades (st : IngestStore) (market : MarketSnapshot)
    (batch : List NormalizedTrade) : InsertResult :=
  let r := insert_trades st batch [(market.external_id, market)]
  match r.latest_at with
  | none => r
  | some ts => ⟨r.inserted, some ts, storeCursor r.store market.external_id ts⟩

/-- The committed store states of one `poll_market_trades` call, in
order: `insert_trades` commits its transaction, then — only when
`latest_at` is set — `_store_cursor` commits a second one. -/
def pollCommits (st : IngestStore) (market : MarketSnapshot)
    (batch : List NormalizedTrade) : List IngestStore :=
  let r := insert_trades st batch [(market.external_id, market)]
  match r.latest_at with
  | none => [r.store]
  | some ts => [r.store, storeCursor r.store market.external_id ts]

/-- The timestamps of the batch rows `insert_trades` will count for this
market: known market and parsable timestamp. -/
def batchTimes (market : MarketSnapshot) (batch : List NormalizedTrade) :
    List Int :=
  batch.filterMap (fun t =>
    if t.market_external_id = market.external_id then t.traded_at else none)

/-- One step of the running maximum. -/
def maxStep (acc : Option Int) (t : Int) : Option Int :=
  match acc with
  | none => some t
  | some l => some (max l t)

/-- The running maximum `insert_trades` computes over those timestamps. -/
def maxTime (times : List Int) : Option Int :=
  times.foldl maxStep none

/-- The `latest_at` component of the value-building fold is the running
maximum of the counted timestamps. -/
theorem buildFold_snd (market : MarketSnapshot) (batch : List NormalizedTrade) :
    ∀ acc : List TradeRow × Option Int,
      (batch.foldl (buildStep [(market.external_id, market)]) acc).2
        = (batchTimes market batch).foldl maxStep acc.2 := by
  induction batch with
  | nil => intro acc; rfl
  | cons t ts ih =>
    intro acc
    simp only [List.foldl_cons, batchTimes, List.filterMap_cons]
    by_cases hm : t.market_external_id = market.external_id
    · have hlk : alookup [(market.external_id, market)] t.market_external_id
          = some market := by
        unfold alookup
        rw [if_pos hm.symm]
      rcases hts : t.traded_at with _ | ts0
      · have hstep : buildStep [(market.external_id, market)] acc t = acc := by
          unfold buildStep
          rw [hlk, hts]
        rw [hstep, if_pos hm]
        exact ih acc
      · have hstep : buildStep [(market.external_id, market)] acc t
            = (acc.1 ++
                [{ market_id := market.id
                 , wallet_address := t.wallet_address.getD ""
                 , side := t.side, shares := t.shares, price := t.price
                 , traded_at := ts0, trade_hash := t.trade_hash }],
               maxStep acc.2 ts0) := by
          unfold buildStep maxStep
          rw [hlk, hts]
          rcases acc.2 with _ | l
          · rfl
          · dsimp only
            congr 1
            by_cases hgt : ts0 > l
            · rw [if_pos hgt, max_eq_right (by omega)]
            · rw [if_neg hgt, max_eq_left (by omega)]
        rw [hstep, if_pos hm]
        dsimp only
        simp only [List.foldl_cons]
        exact ih _
    · have hlk : alookup [(market.external_id, market)] t.market_external_id
          = none := by
        unfold alookup
        rw [if_neg (fun hcontra => hm hcontra.symm)]
        rfl
      have hstep : buildStep [(market.external_id, market)] acc t = acc := by
        unfold buildStep
        rw [hlk]
      rw [hstep, if_neg hm]
      exact ih acc

/-- The value fold appends one row per counted timestamp. -/
theorem buildFold_fst_length (market : MarketSnapshot)
    (batch : List NormalizedTrade) :
    ∀ acc : List TradeRow × Option Int,
      (batch.foldl (buildStep [(market.external_id, market)]) acc).1.length
        = acc.1.length + (batchTimes market batch).length := by
  induction batch with
  | nil => intro acc; simp [batchTimes]
  
  | cons t ts ih =>
    intro acc
    simp only [List.foldl_cons, batchTimes, List.filterMap_cons]
    by_cases hm : t.market_external_id = market.external_id
    · have hlk : alookup [(market.external_id, market)] t.market_external_id
          = some market := by
        unfold alookup
        rw [if_pos hm.symm]
      rcases hts : t.traded_at with _ | ts0
      · have hstep : buildStep [(market.external_id, market)] acc t = acc := by
          unfold buildStep
          rw [hlk, hts]
        rw [hstep, if_pos hm]
        exact ih acc
      · have hstep1 : (buildStep [(market.external_id, market)] acc t).1
            = acc.1 ++
                [{ market_id := market.id
                 , wallet_address := t.wallet_address.getD ""
                 , side := t.side, shares := t.shares, price := t.price
                 , traded_at := ts0, trade_hash := t.trade_hash }] := by
          unfold buildStep
          rw [hlk, hts]
      -- rebuild the stepped accumulator as a pair to use the ih
        have h2 := ih (buildStep [(market.external_id, market)] acc t)
        rw [h2, hstep1, if_pos hm]
        dsimp only
        simp only [batchTimes, List.length_append, List.length_cons,
          List.length_nil]
        omega
    · have hlk : alookup [(market.external_id, market)] t.market_external_id
          = none := by
        unfold alookup
        rw [if_neg (fun hcontra => hm hcontra.symm)]
        rfl
      have hstep : buildStep [(market.external_id, market)] acc t = acc := by
        unfold buildStep
        rw [hlk]
      rw [hstep, if_neg hm]
      exact ih acc

/-- `latest_at` of the built values is the batch maximum. -/
theorem buildValues_snd (market : MarketSnapshot)
    (batch : List NormalizedTrade) :
    (buildValues [(market.external_id, market)] batch).2
      = maxTime (batchTimes market batch) :=
  buildFold_snd market batch ([], none)

/-- An empty value list means no batch row was counted. -/
theorem buildValues_fst_nil (market : MarketSnapshot)
    (batch : List NormalizedTrade)
    (h : (buildValues [(market.external_id, market)] batch).1 = []) :
    batchTimes market batch = [] := by
  have hlen := buildFold_fst_length market batch ([], none)
  rw [show (([], none) : List TradeRow × Option Int).1.length = 0 from rfl] at hlen
  rw [show (batch.foldl (buildStep [(market.external_id, market)]) ([], none))
      = buildValues [(market.external_id, market)] batch from rfl, h] at hlen
  simp only [List.length_nil] at hlen
  exact List.length_eq_zero.mp (by omega)

/-- `insert_trades` never touches the cursor table. -/
theorem insert_trades_cursors (st : IngestStore)
    (trades : List NormalizedTrade)
    (markets : List (String × MarketSnapshot)) :
    (insert_trades st trades markets).store.cursors = st.cursors := by
  simp only [insert_trades]
  split <;> rfl

/-- `insert_trades` reports the batch maximum as `latest_at`. -/
theorem insert_trades_latest (st : IngestStore) (market : MarketSnapshot)
    (batch : List NormalizedTrade) :
    (insert_trades st batch [(market.external_id, market)]).latest_at
      = maxTime (batchTimes market batch) := by
  simp only [insert_trades]
  rcases hbv : (buildValues [(market.external_id, market)] batch).1
    with _ | ⟨v, vs⟩
  · dsimp only
    rw [buildValues_fst_nil market batch hbv]
    rfl
  · dsimp only
    exact buildValues_snd market batch

/-- C2 amended: the per-market cursor is advanced to the maximum
`traded_at` of the batch rows that have a known market and a parsable
timestamp — whether or not the `ON CONFLICT DO NOTHING` insert accepted
any row — and is left alone only when no such row exists; the trade
insert commits first and the cursor update commits separately afterwards
(the first committed state always carries the original cursors). -/
theorem c2_amended_cursor_advance (st : IngestStore)
    (market : MarketSnapshot) (batch : List NormalizedTrade) :
    (poll_market_trades st market batch).latest_at
        = maxTime (batchTimes market batch) ∧
    (poll_market_trades st market batch).store.cursors
        = (match maxTime (batchTimes market batch) with
           | some ts =>
             aupdate st.cursors (CURSOR_PREFIX ++ market.external_id) ts
           | none => st.cursors) ∧
    (pollCommits st market batch).head?.map IngestStore.cursors
        = some st.cursors := by
  have hl := insert_trades_latest st market batch
  have hcur := insert_trades_cursors st batch [(market.external_id, market)]
  rcases hm : (insert_trades st batch [(market.external_id, market)]).latest_at
    with _ | ts
  · rw [hm] at hl
    refine ⟨?_, ?_, ?_⟩
    · simp only [poll_market_trades, hm]
      exact hl
    · simp only [poll_market_trades, hm, ← hl]
      exact hcur
    · simp only [pollCommits, hm, List.head?_cons]
      simp [hcur]
  · rw [hm] at hl
    refine ⟨?_, ?_, ?_⟩
    · simp only [poll_market_trades, hm]
      exact hl
    · simp only [poll_market_trades, hm, ← hl, storeCursor]
      rw [hcur]
    · simp only [pollCommits, hm, List.head?_cons]
      simp [hcur]

/-- The market of the concrete ingestion scenarios. -/
def c2_market : MarketSnapshot := ⟨1, "m1", "active", none⟩

/-- A trade row already in the store. -/
def c2_existing_row : TradeRow :=
  { market_id := 1, wallet_address := "w", side := "buy", shares := 10
  , price := 1, traded_at := 1000, trade_hash := none }

/-- A store holding that row, its market cursor at 500. -/
def c2_store : IngestStore :=
  ⟨[c2_existing_row], [(CURSOR_PREFIX ++ "m1", 500)]⟩

/-- A fetched batch row normalizing to the stored row's composite key. -/
def c2_dup_trade : NormalizedTrade :=
  ⟨"m1", some "w", "buy", 10, 1, some 1000, none⟩

/-- A fetched batch row new to the store. -/
def c2_new_trade : NormalizedTrade :=
  ⟨"m1", some "w", "buy", 7, 1, some 2000, none⟩

/-- C2 counterexample.  First half: polling a batch whose only row is a
duplicate inserts 0 rows, yet the cursor still advances from 500 to the
batch's traded_at 1000 — refuting "advanced only when at least one row
was accepted".  Second half: polling a batch with one fresh row produces
two separate commits, and the first committed state already holds the
inserted trade while the cursor still reads 500 — refuting "the cursor
update executes in the same transaction as the trade insert". -/
theorem c2_counterexample_cursor_advance_without_accept :
    ((poll_market_trades c2_store c2_market [c2_dup_trade]).inserted = 0 ∧
     loadCursor (poll_market_trades c2_store c2_market [c2_dup_trade]).store
       "m1" = some 1000 ∧
     loadCursor c2_store "m1" = some 500) ∧
    ((pollCommits c2_store c2_market [c2_new_trade]).length = 2 ∧
     (pollCommits c2_store c2_market [c2_new_trade]).head?.map
         (fun s => (s.trades.length, loadCursor s "m1"))
       = some (2, some 500)) := by
  norm_num [poll_market_trades, pollCommits, insert_trades, buildValues,
    buildStep, insertAccepted, tradeConflicts, storeCursor, loadCursor,
    alookup, aupdate, CURSOR_PREFIX, c2_store, c2_market, c2_dup_trade,
    c2_new_trade, c2_existing_row, List.foldl_cons, List.foldl_nil]

/-- Accepted rows are a subset of the statement's value rows. -/
theorem insertAccepted_subset (existing values : List TradeRow) :
    ∀ a ∈ insertAccepted existing values, a ∈ values := by
  unfold insertAccepted
  suffices h : ∀ (vs : List TradeRow) (acc : List TradeRow),
      ∀ a ∈ vs.foldl
        (fun acc v =>
          if tradeConflicts (existing ++ acc) v then acc else acc ++ [v])
        acc,
        a ∈ acc ∨ a ∈ vs by
    intro a ha
    rcases h values [] a ha with h' | h'
    · exact absurd h' (List.not_mem_nil a)
    · exact h'
  intro vs
  induction vs with
  | nil => intro acc a ha; left; exact ha
  | cons v rest ih =>
    intro acc a ha
    simp only [List.foldl_cons] at ha
    by_cases hc : tradeConflicts (existing ++ acc) v = true
    · rw [if_pos hc] at ha
      rcases ih acc a ha with h | h
      · left; exact h
      · right; exact List.mem_cons_of_mem _ h
    · rw [if_neg hc] at ha
      rcases ih (acc ++ [v]) a ha with h | h
      · rcases List.mem_append.mp h with h | h
        · left; exact h
        · simp only [List.mem_singleton] at h
          right; rw [h]; exact List.mem_cons_self _ _
      · right; exact List.mem_cons_of_mem _ h

/-- Every built value row copies its side from some batch row. -/
theorem buildFold_fst_mem (markets : List (String × MarketSnapshot))
    (batch : List NormalizedTrade) :
    ∀ acc : List TradeRow × Option Int,
      ∀ v ∈ (batch.foldl (buildStep markets) acc).1,
        v ∈ acc.1 ∨ ∃ t ∈ batch, v.side = t.side := by
  induction batch with
  | nil => intro acc v hv; left; exact hv
  | cons t ts ih =>
    intro acc v hv
    simp only [List.foldl_cons] at hv
    rcases ih (buildStep markets acc t) v hv with h | ⟨t', ht', hs⟩
    · rcases hlk : alookup markets t.market_external_id with _ | m
      · have h1 : (buildStep markets acc t).1 = acc.1 := by
          unfold buildStep
          rw [hlk]
        rw [h1] at h
        left; exact h
      · rcases hts : t.traded_at with _ | ts0
        · have h1 : (buildStep markets acc t).1 = acc.1 := by
            unfold buildStep
            rw [hlk, hts]
          rw [h1] at h
          left; exact h
        · have h1 : (buildStep markets acc t).1
              = acc.1 ++
                [{ market_id := m.id
                 , wallet_address := t.wallet_address.getD ""
                 , side := t.side, shares := t.shares, price := t.price
                 , traded_at := ts0, trade_hash := t.trade_hash }] := by
            unfold buildStep
            rw [hlk, hts]
          rw [h1] at h
          rcases List.mem_append.mp h with h | h
          · left; exact h
          · simp only [List.mem_singleton] at h
            right
            refine ⟨t, List.mem_cons_self _ _, ?_⟩
            rw [h]
    · right; exact ⟨t', List.mem_cons_of_mem _ ht', hs⟩

/-- Every normalized trade's side is the lower-cased first truthy of the
item's `side`/`type` fields, defaulting to "unknown". -/
theorem fetch_normalize_side (market_id : String) (items : List RawTrade) :
    ∀ t ∈ fetch_recent_trades_normalize market_id items,
      ∃ item ∈ items,
        t.side = toLowerStr
          (firstTruthyStr [item.side, item.type_field] "unknown") := by
  intro t ht
  unfold fetch_recent_trades_normalize at ht
  have hmf := List.mem_filter.mp ht
  rcases List.mem_map.mp hmf.1 with ⟨item, hitem, heq⟩
  refine ⟨item, hitem, ?_⟩
  rw [← heq]
  rfl

/-- C7 amended: every trade the ingestion path inserts carries as side
the lower-cased upstream `side` (or `type`) string, defaulting to
"unknown" when both are absent; the value is NOT validated against
{'buy', 'sell'} — any upstream string is stored lower-cased. -/
theorem c7_amended_side_lowercased_not_validated (st : IngestStore)
    (market : MarketSnapshot) (items : List RawTrade) :
    ∀ tr ∈ (insert_trades st
        (fetch_recent_trades_normalize market.external_id items)
        [(market.external_id, market)]).store.trades,
      tr ∈ st.trades ∨
      ∃ item ∈ items,
        tr.side = toLowerStr
          (firstTruthyStr [item.side, item.type_field] "unknown") := by
  intro tr htr
  simp only [insert_trades] at htr
  rcases hbv : (buildValues [(market.external_id, market)]
      (fetch_recent_trades_normalize market.external_id items)).1
    with _ | ⟨v, vs⟩
  · rw [hbv] at htr
    left
    exact htr
  · rw [hbv] at htr
    dsimp only at htr
    rcases List.mem_append.mp htr with h | h
    · left; exact h
    · have hval : tr ∈ v :: vs :=
        insertAccepted_subset st.trades (v :: vs) tr h
      rw [← hbv] at hval
      rcases buildFold_fst_mem [(market.external_id, market)]
          (fetch_recent_trades_normalize market.external_id items)
          ([], none) tr hval with h' | ⟨t, ht, hs⟩
      · exact absurd h' (List.not_mem_nil tr)
      · rcases fetch_normalize_side market.external_id items t ht
          with ⟨item, hitem, hs2⟩
        right
        exact ⟨item, hitem, hs.trans hs2⟩

/-- An upstream item whose side is the arbitrary string "YOLO". -/
def c7_raw : RawTrade :=
  { side := some "YOLO", type_field := none, proxyWallet := some "w"
  , wallet := none, wallet_address := none, address := none
  , shares := some 10, amount := none, size := none
  , price := some 1, fill_price := none, avg_price := none
  , parsed_timestamp := some 1000
  , transactionHash := none, hash_field := none, id_field := none
  , txid := none }

/-- C7 counterexample: the payload row with side "YOLO" is normalized and
inserted with side "yolo" — neither "buy" nor "sell". -/
theorem c7_counterexample_side_not_validated :
    ((insert_trades ⟨[], []⟩
        (fetch_recent_trades_normalize "m1" [c7_raw])
        [("m1", c2_market)]).store.trades.map
      PolymarketWatch.Engine.TradeRow.side = ["yolo"]) ∧
    ("yolo" : String) ≠ "buy" ∧ ("yolo" : String) ≠ "sell" := by
  refine ⟨?_, by decide, by decide⟩
  norm_num [insert_trades, fetch_recent_trades_normalize, normalizeRaw,
    firstTruthyStr, firstTruthyStrOpt, firstTruthyQ, buildValues, buildStep,
    insertAccepted, tradeConflicts, alookup, c7_raw, c2_market,
    List.foldl_cons, List.foldl_nil]
  decide

/-- C7 witness: the amended theorem applied to the "YOLO" payload; the
inserted row's side is the lower-cased upstream string. -/
theorem c7_amended_side_lowercased_not_validated_witness :
    ({ market_id := 1, wallet_address := "w", side := "yolo"
     , shares := 10, price := 1, traded_at := 1000
     , trade_hash := none } : PolymarketWatch.Engine.TradeRow)
        ∈ (⟨[], []⟩ : IngestStore).trades ∨
    ∃ item ∈ [c7_raw],
      ({ market_id := 1, wallet_address := "w", side := "yolo"
       , shares := 10, price := 1, traded_at := 1000
       , trade_hash := none } : PolymarketWatch.Engine.TradeRow).side
        = toLowerStr
          (firstTruthyStr [item.side, item.type_field] "unknown") :=
  c7_amended_side_lowercased_not_validated ⟨[], []⟩ c2_market [c7_raw] _
    (by
      norm_num [insert_trades, fetch_recent_trades_normalize, normalizeRaw,
        firstTruthyStr, firstTruthyStrOpt, firstTruthyQ, buildValues,
        buildStep, insertAccepted, tradeConflicts, alookup, c7_raw, c2_market,
        List.foldl_cons, List.foldl_nil]
      decide)

end PolymarketWatch.Ingestion

namespace PolymarketWatch.Notifier

/-! ## services/notifier/worker.py

`run_notifier`'s startup checks and one loop iteration.  The formatted
message text (`_build_message`) is not modelled — the claims constrain
whether a message is sent or merely logged, and the cursor.  Config
defaults (`config.py`): `telegram_bot_token` defaults to the sentinel
"CHANGEME" when absent, `telegram_chat_id` to `None`. -/

structure NotifierConfig where
  telegram_bot_token : String
  telegram_chat_id : Option String
  notifier_dry_run : Bool
deriving DecidableEq, Repr

/-- Python truthiness of `cfg.telegram_chat_id` being falsy
(`not cfg.telegram_chat_id`). -/
def chatIdMissing (cfg : NotifierConfig) : Bool :=
  match cfg.telegram_chat_id with
  | none => true
  | some s => s = ""

/-- The startup check of `run_notifier`:
`if not cfg.telegram_bot_token or cfg.telegram_bot_token == "CHANGEME":
raise RuntimeError(...)`.  A missing chat id only logs a warning. -/
def notifierStartup (cfg : NotifierConfig) : Except String Unit :=
  if cfg.telegram_bot_token = "" ∨ cfg.telegram_bot_token = "CHANGEME" then
    Except.error "TELEGRAM_BOT_TOKEN is not configured"
  else Except.ok ()

/-- `chat_id = cfg.telegram_chat_id or "dry-run"`. -/
def chatIdFor (cfg : NotifierConfig) : String :=
  match cfg.telegram_chat_id with
  | none => "dry-run"
  | some s => if s = "" then "dry-run" else s

/-- An Alert row as the notifier reads it. -/
structure AlertView where
  id : Int
  market_id : Option Int
  side : Option String
  status : Option String
  updated_at : Int
deriving DecidableEq, Repr

/-- The observable effect of `_send`: a real Telegram send, or the
dry-run log line. -/
inductive SendAction where
  | sent (chat_id : String) (alert_id : Int)
  | logged (chat_id : String) (alert_id : Int)
deriving DecidableEq, Repr

/-- `_send`: log-and-return on dry_run, else send. -/
def sendAction (chat_id : String) (alert_id : Int) (dry_run : Bool) :
    SendAction :=
  if dry_run then SendAction.logged chat_id alert_id
  else SendAction.sent chat_id alert_id

/-- The iteration's SELECT: alerts with `updated_at > cursor` (when a
cursor exists), ordered by `updated_at`, limited to 50. -/
def selectBatch (alerts : List AlertView) (cursor : Option Int) :
    List AlertView :=
  let filtered :=
    match cursor with
    | some c => alerts.filter (fun a => a.updated_at > c)
    | none => alerts
  (sortByKey (fun a => a.updated_at) filtered).take 50

/-- The per-alert loop body: track `latest_ts` (seeded with the loaded
cursor), and emit through `_send` only for status watch/high, with
`dry_run = cfg.notifier_dry_run or not cfg.telegram_chat_id`. -/
def iterStep (cfg : NotifierConfig) (acc : List SendAction × Option Int)
    (a : AlertView) : List SendAction × Option Int :=
  let latest :=
    match acc.2 with
    | some l => some (max l a.updated_at)
    | none => some a.updated_at
  if a.status = some "watch" ∨ a.status = some "high" then
    (acc.1 ++ [sendAction (chatIdFor cfg) a.id
        (cfg.notifier_dry_run || chatIdMissing cfg)], latest)
  else (acc.1, latest)

/-- The outcome of one notifier iteration. -/
structure NotifierResult where
  actions : List SendAction
  cursor : Option Int
  idled : Bool
deriving DecidableEq, Repr

/-- One iteration of `run_notifier`'s loop body: select the batch, idle
when it is empty (`StopIteration`), else process each alert and store
`latest_ts` in the same transaction when it is set. -/
def notifierIteration (cfg : NotifierConfig) (alerts : List AlertView)
    (cursor : Option Int) : NotifierResult :=
  match selectBatch alerts cursor with
  | [] => ⟨[], cursor, true⟩
  | row :: rows =>
    ⟨((row :: rows).foldl (iterStep cfg) ([], cursor)).1,
     (match ((row :: rows).foldl (iterStep cfg) ([], cursor)).2 with
      | some ts => some ts
      | none => cursor),
     false⟩

/-- With a falsy chat id, every emitted action is the dry-run log line to
the placeholder chat "dry-run". -/
theorem foldl_iterStep_logged (cfg : NotifierConfig)
    (hchat : chatIdMissing cfg = true) (rows : List AlertView) :
    ∀ acc : List SendAction × Option Int,
      (∀ act ∈ acc.1, ∃ i : Int, act = SendAction.logged "dry-run" i) →
      ∀ act ∈ (rows.foldl (iterStep cfg) acc).1,
        ∃ i : Int, act = SendAction.logged "dry-run" i := by
  have hdry : ∀ b : Bool, (b || chatIdMissing cfg) = true := by
    intro b
    rw [hchat]
    exact Bool.or_true b
  have hchatid : chatIdFor cfg = "dry-run" := by
    unfold chatIdFor
    unfold chatIdMissing at hchat
    rcases hc : cfg.telegram_chat_id with _ | s
    · rfl
    · rw [hc] at hchat
      simp only [decide_eq_true_eq] at hchat
      dsimp only
      rw [if_pos hchat]
  induction rows with
  | nil => intro acc hacc; exact hacc
  | cons a rows ih =>
    intro acc hacc
    simp only [List.foldl_cons]
    refine ih _ ?_
    intro act hact
    unfold iterStep at hact
    by_cases hs : a.status = some "watch" ∨ a.status = some "high"
    · rw [if_pos hs] at hact
      dsimp only at hact
      rcases List.mem_append.mp hact with h | h
      · exact hacc act h
      · simp only [List.mem_singleton] at h
        refine ⟨a.id, ?_⟩
        rw [h]
        unfold sendAction
        rw [if_pos (hdry cfg.notifier_dry_run), hchatid]
    · rw [if_neg hs] at hact
      exact hacc act hact

/-- The `latest_ts` tracking never depends on the config. -/
theorem foldl_iterStep_snd (cfg cfg' : NotifierConfig)
    (rows : List AlertView) :
    ∀ (l l' : List SendAction) (c : Option Int),
      (rows.foldl (iterStep cfg) (l, c)).2
        = (rows.foldl (iterStep cfg') (l', c)).2 := by
  induction rows with
  | nil => intro l l' c; rfl
  | cons a rows ih =>
    intro l l' c
    simp only [List.foldl_cons]
    unfold iterStep
    dsimp only
    by_cases hs : a.status = some "watch" ∨ a.status = some "high" <;>
      [rw [if_pos hs, if_pos hs]; rw [if_neg hs, if_neg hs]] <;>
      rcases c with _ | cv <;>
      exact ih _ _ _

/-- C9: If the chat credential (the chat id) is absent from the
configuration — while the bot token itself is configured — the notifier
does not fail at startup; its iteration runs in dry-run mode, logging
every message to the placeholder chat instead of sending it, and it still
advances its cursor exactly as a fully-configured notifier would. -/
theorem c9_missing_chat_id_runs_dry (cfg : NotifierConfig)
    (alerts : List AlertView) (cursor : Option Int)
    (htoken : cfg.telegram_bot_token ≠ "" ∧
      cfg.telegram_bot_token ≠ "CHANGEME")
    (hchat : chatIdMissing cfg = true) :
    notifierStartup cfg = Except.ok () ∧
    (∀ act ∈ (notifierIteration cfg alerts cursor).actions,
      ∃ i : Int, act = SendAction.logged "dry-run" i) ∧
    (∀ cfg' : NotifierConfig,
      (notifierIteration cfg alerts cursor).cursor
        = (notifierIteration cfg' alerts cursor).cursor) := by
  refine ⟨?_, ?_, ?_⟩
  · unfold notifierStartup
    rw [if_neg]
    rintro (h | h)
    · exact htoken.1 h
    · exact htoken.2 h
  · intro act hact
    unfold notifierIteration at hact
    rcases hb : selectBatch alerts cursor with _ | ⟨row, rows⟩ <;>
      rw [hb] at hact
    · exact absurd hact (List.not_mem_nil act)
    · refine foldl_iterStep_logged cfg hchat (row :: rows) ([], cursor)
        ?_ act ?_
      · intro a ha
        exact absurd ha (List.not_mem_nil a)
      · exact hact
  · intro cfg'
    unfold notifierIteration
    rcases hb : selectBatch alerts cursor with _ | ⟨row, rows⟩
    · rfl
    · dsimp only
      rw [foldl_iterStep_snd cfg cfg' (row :: rows) [] [] cursor]

/-- The concrete config of the C9 witness: token present, chat id
absent. -/
def c9_cfg : NotifierConfig := ⟨"token123", none, false⟩

/-- A high alert the C9 witness processes. -/
def c9_alert : AlertView := ⟨1, some 1, some "buy", some "high", 100⟩

/-- C9 witness: a configured token with no chat id starts cleanly, logs
its one alert instead of sending, and advances the cursor like any other
configuration. -/
theorem c9_missing_chat_id_runs_dry_witness :
    notifierStartup c9_cfg = Except.ok () ∧
    (∀ act ∈ (notifierIteration c9_cfg [c9_alert] none).actions,
      ∃ i : Int, act = SendAction.logged "dry-run" i) ∧
    (∀ cfg' : NotifierConfig,
      (notifierIteration c9_cfg [c9_alert] none).cursor
        = (notifierIteration cfg' [c9_alert] none).cursor) :=
  c9_missing_chat_id_runs_dry c9_cfg [c9_alert] none
    ⟨by decide, by decide⟩ rfl

end PolymarketWatch.Notifier

open PolymarketWatch PolymarketWatch.Accuracy

namespace PolymarketWatch.Engine

/-- C1: For every fixed store state and every ordered trade sequence, two
runs of `SignalEngine.evaluate` on that same input emit identical signal
sequences: equal length and elementwise equal `signal_type`,
`wallet_address`, `side`, `observed_at`, `severity`, and `score`.  The two
runs may even be made by engines constructed at different wall-clock
times (`now` is never read by `evaluate`). -/
theorem c1_evaluate_replay_deterministic (now₁ now₂ : Int) (store : Store)
    (trades : List TradeEnvelope) :
    (evaluate now₁ store trades).length = (evaluate now₂ store trades).length ∧
    ∀ i : Nat,
      ((evaluate now₁ store trades)[i]?).map Signal.signal_type
          = ((evaluate now₂ store trades)[i]?).map Signal.signal_type ∧
      ((evaluate now₁ store trades)[i]?).map Signal.wallet_address
          = ((evaluate now₂ store trades)[i]?).map Signal.wallet_address ∧
      ((evaluate now₁ store trades)[i]?).map Signal.side
          = ((evaluate now₂ store trades)[i]?).map Signal.side ∧
      ((evaluate now₁ store trades)[i]?).map Signal.observed_at
          = ((evaluate now₂ store trades)[i]?).map Signal.observed_at ∧
      ((evaluate now₁ store trades)[i]?).map Signal.severity
          = ((evaluate now₂ store trades)[i]?).map Signal.severity ∧
      ((evaluate now₁ store trades)[i]?).map Signal.score
          = ((evaluate now₂ store trades)[i]?).map Signal.score :=
  ⟨rfl, fun _ => ⟨rfl, rfl, rfl, rfl, rfl, rfl⟩⟩

/-- The scenario trade of claim C5: market m1, a wallet with no prior
trades, side buy, shares 2000, price 0.6. -/
def c5_trade : TradeEnvelope :=
  { id := 1, market_id := 1, wallet_address := "w_new", side := "buy"
  , shares := 2000, price := 6 / 10, traded_at := 1000 }

/-- C5 counterexample: on the claimed input the engine emits two signals,
not exactly one. -/
theorem c5_counterexample_two_signals :
    (evaluate 0 ⟨[], []⟩ [c5_trade]).length = 2 := by
  norm_num [evaluate, sortByKey, insertSortedBy, evalTrace, evalStep, initState,
    getWalletHist, loadWalletHistory, getPriceHist, loadMarketHistory,
    loadWalletStats, baselinePrice, appendMax50, notionalOf, alookup, aupdate,
    lastN, c5_trade, BIG_NOTIONAL, LOW_ACTIVITY_MAX_TRADES, LOW_ACTIVITY_WINDOW,
    REPEAT_WINDOW, REPEAT_MIN_COUNT, IMPACT_DEVIATION, IMPACT_MIN_NOTIONAL,
    CLUSTER_WINDOW, CLUSTER_MIN_WALLETS, CLUSTER_MIN_NOTIONAL,
    SMART_WALLET_MIN_ACCURACY, SMART_WALLET_MIN_TRADES, SMART_WALLET_MIN_NOTIONAL]

/-- C5 amended: for a batch consisting of a single trade on market m1 by a
wallet with no prior trades in the store, side buy, shares 2000, price 0.6,
`SignalEngine.evaluate` emits exactly two signals: a
`FRESH_WALLET_BIG_SIZE` signal with severity high and score 1200.0,
followed by a `LOW_ACTIVITY_WALLET_BIG_SIZE` signal with severity medium
and score 1200.0 (the zero-activity wallet satisfies both big-size
detectors). -/
theorem c5_amended_fresh_wallet_big_size :
    evaluate 0 ⟨[], []⟩ [c5_trade] =
      [{ market_id := 1, wallet_address := "w_new", side := "buy"
       , signal_type := "FRESH_WALLET_BIG_SIZE", severity := "high"
       , score := 1200, observed_at := 1000 },
       { market_id := 1, wallet_address := "w_new", side := "buy"
       , signal_type := "LOW_ACTIVITY_WALLET_BIG_SIZE", severity := "medium"
       , score := 1200, observed_at := 1000 }] := by
  norm_num [evaluate, sortByKey, insertSortedBy, evalTrace, evalStep, initState,
    getWalletHist, loadWalletHistory, getPriceHist, loadMarketHistory,
    loadWalletStats, baselinePrice, appendMax50, notionalOf, alookup, aupdate,
    lastN, c5_trade, BIG_NOTIONAL, LOW_ACTIVITY_MAX_TRADES, LOW_ACTIVITY_WINDOW,
    REPEAT_WINDOW, REPEAT_MIN_COUNT, IMPACT_DEVIATION, IMPACT_MIN_NOTIONAL,
    CLUSTER_WINDOW, CLUSTER_MIN_WALLETS, CLUSTER_MIN_NOTIONAL,
    SMART_WALLET_MIN_ACCURACY, SMART_WALLET_MIN_TRADES, SMART_WALLET_MIN_NOTIONAL]

/-- The WalletStats row of claim C6's scenario: wallet w_smart with
evaluated_trades = 15 and accuracy_score = 0.75. -/
def c6_stats : WalletStatsRow :=
  { wallet_address := "w_smart", total_trades := 20, evaluated_trades := 15
  , correct_15m := 10, correct_1h := 11, correct_4h := 12
  , accuracy_score := some (75 / 100), avg_delta_when_correct := some (8 / 100)
  , total_notional := 5000, current_streak := 3, best_streak := 5 }

/-- The store of claim C6's scenario. -/
def c6_store : Store := ⟨[], [c6_stats]⟩

/-- The scenario trade of claim C6: notional 60 (shares 100 at price 0.6)
on market m1 by w_smart. -/
def c6_trade : TradeEnvelope :=
  { id := 1, market_id := 1, wallet_address := "w_smart", side := "buy"
  , shares := 100, price := 6 / 10, traded_at := 1000 }

/-- C6 counterexample: on a trade of notional 60 by a smart wallet
(evaluated_trades = 15, accuracy_score = 0.75) the engine emits no signal
at all — 60 is below `SMART_WALLET_MIN_NOTIONAL = 100`, so in particular
no `EARLY_POSITIONING` signal is emitted. -/
theorem c6_counterexample_no_signal :
    evaluate 0 c6_store [c6_trade] = [] := by
  norm_num [evaluate, sortByKey, insertSortedBy, evalTrace, evalStep, initState,
    getWalletHist, loadWalletHistory, getPriceHist, loadMarketHistory,
    loadWalletStats, baselinePrice, appendMax50, notionalOf, alookup, aupdate,
    lastN, c6_trade, c6_store, c6_stats, BIG_NOTIONAL, LOW_ACTIVITY_MAX_TRADES,
    LOW_ACTIVITY_WINDOW, REPEAT_WINDOW, REPEAT_MIN_COUNT, IMPACT_DEVIATION,
    IMPACT_MIN_NOTIONAL, CLUSTER_WINDOW, CLUSTER_MIN_WALLETS,
    CLUSTER_MIN_NOTIONAL, SMART_WALLET_MIN_ACCURACY, SMART_WALLET_MIN_TRADES,
    SMART_WALLET_MIN_NOTIONAL]

/-- The trade of the amended claim C6: same smart wallet, notional 120
(shares 200 at price 0.6), at or above the detector's minimum. -/
def c6_trade_qualifying : TradeEnvelope :=
  { id := 2, market_id := 1, wallet_address := "w_smart", side := "buy"
  , shares := 200, price := 6 / 10, traded_at := 1000 }

/-- `alookup` after `aupdate` at a different key is unchanged. -/
theorem alookup_aupdate_ne {α β : Type} [DecidableEq α] (l : List (α × β))
    (k k' : α) (v : β) (h : k ≠ k') :
    alookup (aupdate l k v) k' = alookup l k' := by
  induction l with
  | nil => simp [aupdate, alookup, h]
  | cons p rest ih =>
    obtain ⟨pk, pv⟩ := p
    by_cases hp : pk = k
    · subst hp
      simp [aupdate, alookup, h]
    · simp [aupdate, alookup, hp, ih]

/-- `_baseline_price` of an empty history is `None`. -/
theorem baselinePrice_nil : baselinePrice [] = none := rfl

/-- A trade on a different market leaves that market's in-batch price
history untouched: `evalStep` appends only to its own trade's market. -/
theorem evalStep_preserves_other_price_history (store : Store)
    (earliest : Int) (st : EngineState) (t : TradeEnvelope) (m : Int)
    (hm : t.market_id ≠ m) :
    alookup (evalStep store earliest st t).2.price_history m
      = alookup st.price_history m := by
  unfold evalStep
  dsimp only
  rw [alookup_aupdate_ne _ _ _ _ hm]
  split <;> rfl

/-- When the trade's market has an empty price history, `evalStep` emits
no `THIN_MARKET_IMPACT` signal for it: the baseline is `None` and the
deviation quotient is never formed. -/
theorem evalStep_no_thin_of_empty_history (store : Store) (earliest : Int)
    (st : EngineState) (t : TradeEnvelope)
    (h : getPriceHist store earliest st t.market_id = []) :
    ∀ s ∈ (evalStep store earliest st t).1,
      s.signal_type ≠ "THIN_MARKET_IMPACT" := by
  intro s hs
  unfold evalStep at hs
  dsimp only at hs
  rw [h, baselinePrice_nil] at hs
  dsimp only at hs
  simp only [List.mem_append, List.not_mem_nil, or_false] at hs
  rcases hs with (((h' | h') | h') | h') | h' <;>
    · repeat' split at h'
      all_goals
        simp only [List.mem_singleton, List.not_mem_nil] at h'
      all_goals
        first
        | exact h'.elim
        | (subst h'; exact ne_of_beq_false rfl)

/-- Loop invariant for the trace: while no earlier trade of the batch
touches market `m` and `m` has no in-batch override and no pre-batch
history, the trade at position `i` emits no `THIN_MARKET_IMPACT`. -/
theorem evalTrace_no_thin_aux (store : Store) (earliest : Int)
    (l : List TradeEnvelope) (st : EngineState) (i : Nat)
    (hfst : ∀ j : Nat, j < i →
      (l.getD j default).market_id ≠ (l.getD i default).market_id)
    (hnone : alookup st.price_history (l.getD i default).market_id = none)
    (hpre : loadMarketHistory store.trades earliest
        (l.getD i default).market_id = []) :
    ∀ s ∈ (evalTrace store earliest l st).getD i [],
      s.signal_type ≠ "THIN_MARKET_IMPACT" := by
  induction l generalizing st i with
  | nil => intro s hs; simp [evalTrace] at hs
  | cons t ts ih =>
    cases i with
    | zero =>
      simp only [List.getD_cons_zero] at hnone hpre
      intro s hs
      have hh : getPriceHist store earliest st t.market_id = [] := by
        unfold getPriceHist
        rw [hnone, hpre]
      refine evalStep_no_thin_of_empty_history store earliest st t hh s ?_
      simpa [evalTrace] using hs
    | succ i =>
      simp only [List.getD_cons_succ] at hfst hnone hpre ⊢
      intro s hs
      have hm : t.market_id ≠ (ts.getD i default).market_id := by
        have h0 := hfst 0 (Nat.succ_pos i)
        simpa using h0
      refine ih ((evalStep store earliest st t).2) i ?_ ?_ hpre s ?_
      · intro j hj
        have := hfst (j + 1) (by omega)
        simpa using this
      · rw [evalStep_preserves_other_price_history store earliest st t _ hm]
        exact hnone
      · simpa [evalTrace] using hs

/-- C10: For every trade evaluated by the signal engine whose market has
no trades before the batch's earliest timestamp and no earlier trade for
that market within the same batch, no `THIN_MARKET_IMPACT` signal is
emitted for that trade: the baseline is `None`, so the deviation quotient
is never computed with a missing or zero baseline (`evaluate` is the
flattening of this per-trade trace over the sorted batch
`first :: rest`). -/
theorem c10_no_thin_market_impact_without_baseline (store : Store)
    (trades : List TradeEnvelope) (first : TradeEnvelope)
    (rest : List TradeEnvelope)
    (_hsorted : sortByKey (fun t => t.traded_at) trades = first :: rest)
    (i : Nat)
    (hfirstofmarket : ∀ j : Nat, j < i →
      ((first :: rest).getD j default).market_id
        ≠ ((first :: rest).getD i default).market_id)
    (hnoprebatch : loadMarketHistory store.trades first.traded_at
        ((first :: rest).getD i default).market_id = []) :
    ∀ s ∈ (evalTrace store first.traded_at (first :: rest) initState).getD i [],
      s.signal_type ≠ "THIN_MARKET_IMPACT" :=
  evalTrace_no_thin_aux store first.traded_at (first :: rest) initState i
    hfirstofmarket rfl hnoprebatch

/-- C10 witness: the hypotheses are discharged at a concrete input (the
one-trade batch of a fresh whale, whose first emitted signal is
`FRESH_WALLET_BIG_SIZE`). -/
theorem c10_no_thin_market_impact_without_baseline_witness :
    ("FRESH_WALLET_BIG_SIZE" : String) ≠ "THIN_MARKET_IMPACT" :=
  c10_no_thin_market_impact_without_baseline ⟨[], []⟩
    [⟨1, 1, "w_new", "buy", 2000, 6 / 10, 1000⟩]
    ⟨1, 1, "w_new", "buy", 2000, 6 / 10, 1000⟩ [] rfl 0
    (by intro j hj; omega)
    rfl
    ⟨1, "w_new", "buy", "FRESH_WALLET_BIG_SIZE", "high", 1200, 1000⟩
    (by
      norm_num [evalTrace, evalStep, initState, getWalletHist,
        loadWalletHistory, getPriceHist, loadMarketHistory, loadWalletStats,
        baselinePrice, appendMax50, notionalOf, alookup, aupdate, lastN,
        BIG_NOTIONAL, LOW_ACTIVITY_MAX_TRADES, LOW_ACTIVITY_WINDOW,
        REPEAT_WINDOW, REPEAT_MIN_COUNT, IMPACT_DEVIATION,
        IMPACT_MIN_NOTIONAL, CLUSTER_WINDOW, CLUSTER_MIN_WALLETS,
        CLUSTER_MIN_NOTIONAL, SMART_WALLET_MIN_ACCURACY,
        SMART_WALLET_MIN_TRADES, SMART_WALLET_MIN_NOTIONAL])

/-- C6 amended: a trade of notional 60 is below the detector's
`SMART_WALLET_MIN_NOTIONAL = 100` and emits nothing; for a trade of
notional ≥ 100 (here 120) on m1 by a wallet whose WalletStats row has
evaluated_trades = 15 and accuracy_score = 0.75, `SignalEngine.evaluate`
emits an `EARLY_POSITIONING` signal with severity high (and score
accuracy · notional = 90). -/
theorem c6_amended_early_positioning :
    evaluate 0 c6_store [c6_trade_qualifying] =
      [{ market_id := 1, wallet_address := "w_smart", side := "buy"
       , signal_type := "EARLY_POSITIONING", severity := "high"
       , score := 90, observed_at := 1000 }] := by
  norm_num [evaluate, sortByKey, insertSortedBy, evalTrace, evalStep, initState,
    getWalletHist, loadWalletHistory, getPriceHist, loadMarketHistory,
    loadWalletStats, baselinePrice, appendMax50, notionalOf, alookup, aupdate,
    lastN, c6_trade_qualifying, c6_store, c6_stats, BIG_NOTIONAL,
    LOW_ACTIVITY_MAX_TRADES, LOW_ACTIVITY_WINDOW, REPEAT_WINDOW,
    REPEAT_MIN_COUNT, IMPACT_DEVIATION, IMPACT_MIN_NOTIONAL, CLUSTER_WINDOW,
    CLUSTER_MIN_WALLETS, CLUSTER_MIN_NOTIONAL, SMART_WALLET_MIN_ACCURACY,
    SMART_WALLET_MIN_TRADES, SMART_WALLET_MIN_NOTIONAL]

end PolymarketWatch.Engine

/-- `"buy".lower() == "buy"` reduced once and for all. -/
theorem toLowerStr_buy : (toLowerStr "buy" = "buy") = True := eq_true (by decide)

/-- `"sell".lower() != "buy"` reduced once and for all. -/
theorem toLowerStr_sell : (toLowerStr "sell" = "buy") = False := eq_false (by decide)

/-- Sanity checks mirroring `tests/test_early_positioning.py`. -/
example : is_favorable_move "buy" (50/100) (some (60/100)) = true := by
  simp only [is_favorable_move, toLowerStr_buy, if_true]
  norm_num [MIN_FAVORABLE_DELTA]
example : is_favorable_move "buy" (50/100) (some (52/100)) = false := by
  simp only [is_favorable_move, toLowerStr_buy, if_true]
  norm_num [MIN_FAVORABLE_DELTA]
example : is_favorable_move "sell" (50/100) (some (40/100)) = true := by
  simp only [is_favorable_move, toLowerStr_sell, if_false]
  norm_num [MIN_FAVORABLE_DELTA]

/-- C8: For all decimal prices p0 and p1,
`is_favorable_move("sell", p0, p1) = is_favorable_move("buy", p0, 2·p0 − p1)`. -/
theorem c8_favorable_move_symmetry (p0 p1 : ℚ) :
    is_favorable_move "sell" p0 (some p1)
      = is_favorable_move "buy" p0 (some (2 * p0 - p1)) := by
  simp only [is_favorable_move, toLowerStr_buy, toLowerStr_sell, if_true, if_false]
  refine decide_eq_decide.mpr ?_
  unfold MIN_FAVORABLE_DELTA
  constructor <;> intro h <;> linarith
